import Mathlib

/-!
Verification of the kickboxerdb consensus core (EPaxos-family consensus manager).

The Go sources are shallowly embedded: each Go function of interest becomes a
Lean function over explicit state values.  Machine integers (uint32 ballots,
uint64 sequences) are modelled as `Nat`; the only arithmetic performed on them
by the embedded code is increment, which is taken modulo 2^32 for ballots.
Where a function is absent from the available sources (only its tests or
callers are present), its definition is modelled from the specification and
marked as such in its doc comment.
-/

namespace Kickboxer

/-- Modelled from the spec: the `InstanceStatus` constants live in the missing
`instance.go`.  The spec (§3) gives four totally ordered states
`PreAccepted < Accepted < Committed < Executed`; the Go zero value (0) of a
freshly allocated instance sits below all of them. -/
def INSTANCE_PREACCEPTED : Nat := 1

/-- Status value for accepted instances. -/
def INSTANCE_ACCEPTED : Nat := 2

/-- Status value for committed instances. -/
def INSTANCE_COMMITTED : Nat := 3

/-- Status value for executed instances. -/
def INSTANCE_EXECUTED : Nat := 4

/-- Ballots are Go `uint32` values; increments wrap at this modulus. -/
def UINT32_MOD : Nat := 4294967296

/-- The consensus metadata of an instance (the fields of the Go `Instance`
struct that the embedded operations read or write). -/
structure Instance where
  InstanceID : Nat := 0
  MaxBallot : Nat := 0
  Status : Nat := 0
  Dependencies : List Nat := []
  Sequence : Nat := 0
  Noop : Bool := false
deriving DecidableEq

/-- The per-scope state touched by the embedded operations: the instance map
and `maxSeq`.  The map is total over instance ids, `none` meaning unknown. -/
structure ScopeState where
  instances : Nat → Option Instance
  maxSeq : Nat := 0

/-- The empty scope (NewScope). -/
def emptyScope : ScopeState where
  instances := fun _ => none

/-- Lookup in the scope's instance map. -/
def ScopeState.get (s : ScopeState) (iid : Nat) : Option Instance :=
  s.instances iid

/-- `instances.Add`: store an instance under its id. -/
def ScopeState.addInst (s : ScopeState) (inst : Instance) : ScopeState :=
  { s with instances := fun i => if i = inst.InstanceID then some inst else s.instances i }

/-- The `if instance.Sequence > s.maxSeq` update appearing in the accept and
commit paths. -/
def ScopeState.bumpSeq (s : ScopeState) (seq : Nat) : ScopeState :=
  { s with maxSeq := if seq > s.maxSeq then seq else s.maxSeq }

/-- `acceptInstanceUnsafe` (scope_accept.go lines 22-51): refuse if the local
status is above Accepted, otherwise adopt the message's dependencies,
sequence, ballot and noop flag and move the instance to status Accepted.  An
unknown instance is added as-is. -/
def acceptInstanceUnsafe (s : ScopeState) (inst : Instance) : ScopeState :=
  match s.get inst.InstanceID with
  | some existing =>
    if existing.Status > INSTANCE_ACCEPTED then s
    else
      let upd := { existing with
        Dependencies := inst.Dependencies
        Sequence := inst.Sequence
        MaxBallot := inst.MaxBallot
        Noop := inst.Noop
        Status := INSTANCE_ACCEPTED }
      (s.addInst upd).bumpSeq upd.Sequence
  | none =>
      let upd := { inst with Status := INSTANCE_ACCEPTED }
      (s.addInst upd).bumpSeq upd.Sequence

/-- `commitInstanceUnsafe` (the scope commit path, manager_accept_test.go
lines 455-500): refuse only if the local status is above Committed, otherwise
adopt the message's dependencies, sequence, ballot and noop flag, optionally
increment the ballot, and move the instance to status Committed. -/
def commitInstanceUnsafe (s : ScopeState) (inst : Instance) (incrementBallot : Bool) : ScopeState :=
  match s.get inst.InstanceID with
  | some existing =>
    if existing.Status > INSTANCE_COMMITTED then s
    else
      let upd := { existing with
        Dependencies := inst.Dependencies
        Sequence := inst.Sequence
        MaxBallot := inst.MaxBallot
        Noop := inst.Noop }
      let upd := { upd with
        Status := INSTANCE_COMMITTED
        MaxBallot := if incrementBallot then (upd.MaxBallot + 1) % UINT32_MOD else upd.MaxBallot }
      (s.addInst upd).bumpSeq upd.Sequence
  | none =>
      let upd := { inst with
        Status := INSTANCE_COMMITTED
        MaxBallot := if incrementBallot then (inst.MaxBallot + 1) % UINT32_MOD else inst.MaxBallot }
      (s.addInst upd).bumpSeq upd.Sequence

/-- Modelled from the spec: `preAcceptInstanceUnsafe` is not among the sources
(only its callers and tests are).  Per §4.4 and the missing-instance tests it
records the instance with status PreAccepted, refusing to downgrade an
instance whose status is already higher. -/
def preAcceptInstanceUnsafe (s : ScopeState) (inst : Instance) : ScopeState :=
  match s.get inst.InstanceID with
  | some existing =>
    if existing.Status > INSTANCE_PREACCEPTED then s
    else
      let upd := { existing with
        Dependencies := inst.Dependencies
        Sequence := inst.Sequence
        MaxBallot := inst.MaxBallot
        Noop := inst.Noop
        Status := INSTANCE_PREACCEPTED }
      (s.addInst upd).bumpSeq upd.Sequence
  | none =>
      let upd := { inst with Status := INSTANCE_PREACCEPTED }
      (s.addInst upd).bumpSeq upd.Sequence

/-- One step of `addMissingInstancesUnsafe` (scope.go variant, lines 318-339
of the scope source): unknown instances are recorded through the unsafe
transition matching their status and then added to the instance map. -/
def addMissingInstanceOne (s : ScopeState) (inst : Instance) : ScopeState :=
  if (s.get inst.InstanceID).isSome then s
  else
    let s1 :=
      if inst.Status = INSTANCE_PREACCEPTED then preAcceptInstanceUnsafe s inst
      else if inst.Status = INSTANCE_ACCEPTED then acceptInstanceUnsafe s inst
      else if inst.Status = INSTANCE_COMMITTED ∨ inst.Status = INSTANCE_EXECUTED then
        commitInstanceUnsafe s inst false
      else s
    if (s1.get inst.InstanceID).isSome then s1 else s1.addInst inst

/-- `addMissingInstancesUnsafe` over a list of forwarded instances. -/
def addMissingInstancesUnsafe (s : ScopeState) (insts : List Instance) : ScopeState :=
  insts.foldl addMissingInstanceOne s

/-- The reply to an Accept message.  A Go `AcceptResponse{Accepted: true}`
leaves `MaxBallot` at its zero value. -/
structure AcceptResponse where
  Accepted : Bool
  MaxBallot : Nat := 0
deriving DecidableEq

/-- An inbound Accept request: the leader's instance plus forwarded missing
instances. -/
structure AcceptRequest where
  MissingInstances : List Instance := []
  Instance : Instance
deriving DecidableEq

/-- `HandleAccept` (manager_test.go lines 405-439): missing instances are
added first; then the request is rejected if a locally known instance has
`MaxBallot >= request.Instance.MaxBallot`, replying with the local ballot;
otherwise the instance is accepted. -/
def HandleAccept (s : ScopeState) (request : AcceptRequest) : ScopeState × AcceptResponse :=
  let s1 := addMissingInstancesUnsafe s request.MissingInstances
  match s1.get request.Instance.InstanceID with
  | some inst =>
    if inst.MaxBallot ≥ request.Instance.MaxBallot then
      (s1, { Accepted := false, MaxBallot := inst.MaxBallot })
    else
      (acceptInstanceUnsafe s1 request.Instance, { Accepted := true })
  | none => (acceptInstanceUnsafe s1 request.Instance, { Accepted := true })

/-- `HandleCommit` (the scope commit path): commit the message instance with
no ballot check at all. -/
def HandleCommit (s : ScopeState) (inst : Instance) : ScopeState :=
  commitInstanceUnsafe s inst false

/-- An inbound Prepare request. -/
structure PrepareRequest where
  InstanceID : Nat
  Ballot : Nat
deriving DecidableEq

/-- The reply to a Prepare message. -/
structure PrepareResponse where
  Accepted : Bool
  Instance : Option Instance := none
deriving DecidableEq

/-- Modelled from the spec: `Instance.updateBallot` lives in the missing
`instance.go`; per §4.3 a successful acceptance updates `max_ballot` to
`max(local, inbound)`, reporting whether it changed. -/
def Instance.updateBallot (inst : Instance) (ballot : Nat) : Instance :=
  if ballot > inst.MaxBallot then { inst with MaxBallot := ballot } else inst

/-- `HandlePrepare` (manager_prepare.go lines 533-568): unknown instances are
accepted with a nil instance in the reply; otherwise the request is accepted
iff its ballot is strictly greater than the local one, in which case the
local ballot is raised to it; either way a copy of the local instance is
returned. -/
def HandlePrepare (s : ScopeState) (request : PrepareRequest) : ScopeState × PrepareResponse :=
  match s.get request.InstanceID with
  | none => (s, { Accepted := true })
  | some inst =>
    if request.Ballot > inst.MaxBallot then
      let upd := inst.updateBallot request.Ballot
      (s.addInst upd, { Accepted := true, Instance := some upd })
    else
      (s, { Accepted := false, Instance := some inst })

/-- The operations on an instance's consensus state that the monotonicity
claim quantifies over. -/
inductive ScopeOp where
  | preaccept (inst : Instance)
  | accept (inst : Instance)
  | commit (inst : Instance) (incrementBallot : Bool)
  | handleAccept (request : AcceptRequest)
  | handleCommit (inst : Instance)
  | handlePrepare (request : PrepareRequest)
  | addMissing (insts : List Instance)

/-- Apply one operation to the scope state. -/
def applyScopeOp (s : ScopeState) : ScopeOp → ScopeState
  | ScopeOp.preaccept inst => preAcceptInstanceUnsafe s inst
  | ScopeOp.accept inst => acceptInstanceUnsafe s inst
  | ScopeOp.commit inst incr => commitInstanceUnsafe s inst incr
  | ScopeOp.handleAccept request => (HandleAccept s request).1
  | ScopeOp.handleCommit inst => HandleCommit s inst
  | ScopeOp.handlePrepare request => (HandlePrepare s request).1
  | ScopeOp.addMissing insts => addMissingInstancesUnsafe s insts

/-- The status of an instance as observed in the scope (0 when unknown). -/
def obsStatus (s : ScopeState) (iid : Nat) : Nat :=
  ((s.get iid).map Instance.Status).getD 0

/-- The max ballot of an instance as observed in the scope (0 when unknown). -/
def obsBallot (s : ScopeState) (iid : Nat) : Nat :=
  ((s.get iid).map Instance.MaxBallot).getD 0

/-! ## Quorum sizes (claim C3) -/

/-- The quorum size computed by `sendPreAccept` (scope.go line 125) and
`sendAccept` (scope_accept.go line 92): `((len(replicas) + 1) / 2) + 1`,
where `replicas` is the list the message is sent to. -/
def acceptQuorumSize (replicaCount : Nat) : Nat :=
  ((replicaCount + 1) / 2) + 1

/-- The quorum size computed by `managerSendPrepare` (manager_prepare.go line
140): `(len(replicas) / 2) + 1`. -/
def prepareQuorumSize (replicaCount : Nat) : Nat :=
  (replicaCount / 2) + 1

/-- All three receive loops start `numReceived` at 1 (the local node counts
as a response) and run while `numReceived < quorumSize`, so this many remote
responses are awaited. -/
def remoteResponsesNeeded (quorum : Nat) : Nat :=
  quorum - 1

/-- Modelled from the spec: `getScopeReplicas`/`getInstanceReplicas` are not
among the sources.  The spec sends phase messages to "all other replicas"
and counts the local replica separately, so a replica set of size `n` yields
`n - 1` remote targets. -/
def remoteReplicaCount (n : Nat) : Nat :=
  n - 1

/-! ## Prepare response analysis (claims C7, C8) -/

/-- The body of the first loop of `analyzePrepareResponses`
(manager_prepare.go lines 19-26): raise the running ballot when a non-nil
response instance carries a higher one. -/
def ballotStep (mb : Nat) (r : PrepareResponse) : Nat :=
  match r.Instance with
  | some inst => if inst.MaxBallot > mb then inst.MaxBallot else mb
  | none => mb

/-- The first loop of `analyzePrepareResponses` (manager_prepare.go lines
18-26): the highest `MaxBallot` among non-nil response instances. -/
def maxResponseBallot (responses : List PrepareResponse) : Nat :=
  responses.foldl ballotStep 0

/-- The `otherInstancesSeen` flag of `analyzePrepareResponses`. -/
def anyResponseInstance (responses : List PrepareResponse) : Bool :=
  responses.any (fun r => r.Instance.isSome)

/-- The body of the second loop of `analyzePrepareResponses` (lines 35-46):
skip nil instances and instances below the highest ballot, keep the first
instance strictly raising the running highest status. -/
def analyzeStep (maxBallot : Nat) (acc : Nat × Option Instance) (r : PrepareResponse) :
    Nat × Option Instance :=
  match r.Instance with
  | none => acc
  | some inst =>
    if inst.MaxBallot < maxBallot then acc
    else if inst.Status > acc.1 then (inst.Status, some inst)
    else acc

/-- `analyzePrepareResponses` (manager_prepare.go lines 14-49). -/
def analyzePrepareResponses (responses : List PrepareResponse) : Option Instance :=
  if !anyResponseInstance responses then none
  else (responses.foldl (analyzeStep (maxResponseBallot responses)) (0, none)).2

/-- The highest status among non-nil response instances whose ballot is at
least `b` (used to state what the second loop of `analyzePrepareResponses`
computes). -/
def statusSupAtBallot (b : Nat) : List PrepareResponse → Nat
  | [] => 0
  | r :: l =>
    match r.Instance with
    | some inst =>
      if b ≤ inst.MaxBallot then max inst.Status (statusSupAtBallot b l)
      else statusSupAtBallot b l
    | none => statusSupAtBallot b l

/-- The three phases a prepare coordinator can drive. -/
inductive Phase where
  | preaccept
  | accept
  | commit
deriving DecidableEq

/-- `managerPrepareCheckResponses` returns a `BallotError` iff some response
was rejected (manager_prepare.go lines 176-230). -/
def allResponsesAccepted (responses : List PrepareResponse) : Bool :=
  responses.all (fun r => r.Accepted)

/-- The phase dispatch of `managerPrepareApply` (the switch at
manager_prepare.go lines 269-315), recorded as the list of phases invoked
together with the id of the instance each phase is started with.
`acceptRequired0` stands for the value `preAcceptPhase` returns (its body is
not among the sources; per spec §4.4 it reports whether the pre-accept merge
changed anything, `false` enabling the fast path that skips Accept).
`none` models the `default:` error case of the switch. -/
def phaseTrace (status : Nat) (pi localInst : Instance) (acceptRequired0 : Bool) :
    Option (List (Phase × Nat)) :=
  if status = INSTANCE_PREACCEPTED then
    some ((Phase.preaccept, pi.InstanceID) ::
      ((if acceptRequired0 then [(Phase.accept, localInst.InstanceID)] else []) ++
        [(Phase.commit, localInst.InstanceID)]))
  else if status = INSTANCE_ACCEPTED then
    some [(Phase.accept, pi.InstanceID), (Phase.commit, localInst.InstanceID)]
  else if status = INSTANCE_COMMITTED ∨ status = INSTANCE_EXECUTED then
    some [(Phase.commit, pi.InstanceID)]
  else none

/-- `managerPrepareApply` (manager_prepare.go lines 233-318), abstracted to
the decisions it makes: whether the local instance is marked noop, and the
phases it drives.  `none` models an error return (a rejected response or the
unknown-status case). -/
def managerPrepareApply (localInst : Instance) (responses : List PrepareResponse)
    (acceptRequired0 : Bool) : Option (Bool × List (Phase × Nat)) :=
  if !allResponsesAccepted responses then none
  else
    match analyzePrepareResponses responses with
    | some remoteInst =>
      let pi := if localInst.Status > remoteInst.Status then localInst else remoteInst
      (phaseTrace pi.Status pi localInst acceptRequired0).map (fun t => (false, t))
    | none =>
      if localInst.Status ≤ INSTANCE_PREACCEPTED then
        let noopInst := { localInst with Noop := true }
        (phaseTrace INSTANCE_PREACCEPTED noopInst noopInst acceptRequired0).map
          (fun t => (true, t))
      else
        (phaseTrace INSTANCE_PREACCEPTED localInst localInst acceptRequired0).map
          (fun t => (false, t))

/-! ## Execution ordering (claim C2) -/

/-- Sequence number of an instance in the committed graph (0 if unknown). -/
def instSeq (g : List Instance) (iid : Nat) : Nat :=
  (((g.find? (fun i => i.InstanceID == iid))).map Instance.Sequence).getD 0

/-- Dependency list of an instance in the committed graph. -/
def instDeps (g : List Instance) (iid : Nat) : List Nat :=
  (((g.find? (fun i => i.InstanceID == iid))).map Instance.Dependencies).getD []

/-- The `(sequence, instance_id)` sort key of §4.8 step 1. -/
def depSortKey (g : List Instance) (iid : Nat) : Nat × Nat :=
  (instSeq g iid, iid)

/-- Lexicographic comparison of sort keys. -/
def depKeyLE (a b : Nat × Nat) : Bool :=
  if a.1 < b.1 then true
  else if b.1 < a.1 then false
  else decide (a.2 ≤ b.2)

/-- Insertion into a key-sorted dependency list. -/
def insertByKey (g : List Instance) (x : Nat) : List Nat → List Nat
  | [] => [x]
  | y :: ys => if depKeyLE (depSortKey g x) (depSortKey g y) then x :: y :: ys
               else y :: insertByKey g x ys

/-- Sort one level of dependencies by `(sequence, instance_id)`. -/
def sortDeps (g : List Instance) (l : List Nat) : List Nat :=
  l.foldr (insertByKey g) []

/-- Modelled from the spec: `getExecutionOrder` is not among the sources
(only its tests are).  Per §4.8 step 1 it is the depth-first traversal of the
target's transitive dependencies, each level sorted by
`(sequence, instance_id)`, skipping instances already executed and instances
already placed in the order, the visited instance appended post-order.  The
fuel argument bounds the recursion depth. -/
def executeDepsDFS (g : List Instance) (executedIds : List Nat) :
    Nat → Nat → List Nat → List Nat
  | 0, _, order => order
  | fuel + 1, iid, order =>
    if iid ∈ order ∨ iid ∈ executedIds then order
    else ((sortDeps g (instDeps g iid)).foldl
            (fun acc d => executeDepsDFS g executedIds fuel d acc) order) ++ [iid]

/-- Modelled from the spec: the execution order for a committed instance. -/
def getExecutionOrder (g : List Instance) (executedIds : List Nat) (target : Instance) :
    List Nat :=
  executeDepsDFS g executedIds (g.length + 1) target.InstanceID []

/-! ## Dependency manager (claims C4, C5) -/

/-- A hierarchical key, e.g. `a:b:c` is `["a", "b", "c"]`. -/
abbrev Key := List String

/-- The per-key sets kept by the dependency manager (§4.2). -/
structure DepsNode where
  writes : Finset Nat := ∅
  reads : Finset Nat := ∅
  acknowledged : Finset Nat := ∅
  executed : Finset Nat := ∅
deriving DecidableEq

/-- The node with all four sets empty. -/
def DepsNode.empty : DepsNode := ⟨∅, ∅, ∅, ∅⟩

/-- The dependency manager state: the tree of §4.2 flattened to an
association list from key paths to nodes. -/
abbrev DepsState := List (Key × DepsNode)

/-- Two keys are on the same root-to-leaf line: one is a prefix of the other
(the node itself, an ancestor, or a descendant). -/
def keyRelated (p q : Key) : Bool :=
  p.isPrefixOf q || q.isPrefixOf p

/-- `q` is a strict ancestor of `p` in the key tree. -/
def keyAncestor (p q : Key) : Prop :=
  q <+: p ∧ q ≠ p

/-- `q` is a strict descendant of `p` in the key tree. -/
def keyDescendant (p q : Key) : Prop :=
  p <+: q ∧ q ≠ p

/-- `getLocalDeps` (per the dependency tests): a write depends on the node's
writes and reads, a read only on its writes. -/
def getLocalDeps (n : DepsNode) (isWrite : Bool) : Finset Nat :=
  if isWrite then n.writes ∪ n.reads else n.writes

/-- Modelled from the spec: the dependency computation of `get_and_set_deps`
(§4.2) — the union of `getLocalDeps` over the key's node, its ancestors and
its descendants. -/
def computeDeps (st : DepsState) (p : Key) (isWrite : Bool) : Finset Nat :=
  st.foldl
    (fun acc e => if keyRelated p e.1 then acc ∪ getLocalDeps e.2 isWrite else acc)
    ∅

/-- Modelled from the spec: registration "removes entries that are in both
`acknowledged` and `executed`" (§4.2). -/
def pruneNode (n : DepsNode) : DepsNode :=
  let dead := n.acknowledged ∩ n.executed
  { writes := n.writes \ dead
    reads := n.reads \ dead
    acknowledged := n.acknowledged \ dead
    executed := n.executed \ dead }

/-- Register the new instance in its key's node: writes join `writes`, reads
join `reads`. -/
def registerNode (n : DepsNode) (isWrite : Bool) (iid : Nat) : DepsNode :=
  if isWrite then { n with writes := insert iid n.writes }
  else { n with reads := insert iid n.reads }

/-- Modelled from the spec: `get_and_set_deps` (§4.2) — compute the new
instance's dependencies (never including itself), then register it under its
key and prune ex-acked entries along the key's line.  The concrete Go
implementation is not among the sources; only its tests are. -/
def getAndSetDeps (st : DepsState) (p : Key) (isWrite : Bool) (selfId : Nat) :
    Finset Nat × DepsState :=
  let deps := (computeDeps st p isWrite).erase selfId
  let st1 := if st.any (fun e => e.1 == p) then st else st ++ [(p, DepsNode.empty)]
  let st2 := st1.map (fun e =>
    if keyRelated p e.1 then
      (e.1, if e.1 == p then registerNode (pruneNode e.2) isWrite selfId
            else pruneNode e.2)
    else e)
  (deps, st2)

/-- The node currently stored for a key (empty when absent). -/
def nodeAt (st : DepsState) (p : Key) : DepsNode :=
  (((st.find? (fun e => e.1 == p))).map Prod.snd).getD DepsNode.empty

/-! ## PreAccept attribute merge (claim C6) -/

/-- Modelled from the spec: the dependency part of the merge (§4.4 step 5) —
the union of the local dependency set with every returned dependency set. -/
def mergeDependencies (localDeps : Finset Nat) (responses : List Instance) : Finset Nat :=
  responses.foldl (fun acc r => acc ∪ r.Dependencies.toFinset) localDeps

/-- Modelled from the spec: the sequence part of the merge (§4.4 step 5) —
the maximum of the local sequence and every returned sequence. -/
def mergeSequence (localSeq : Nat) (responses : List Instance) : Nat :=
  responses.foldl (fun acc r => max acc r.Sequence) localSeq

/-- Modelled from the spec: `mergePreAcceptAttributes` (§4.4 step 5; the
sources contain only its tests).  The coordinator instance adopts the merged
dependencies and sequence; `changes` reports whether either differs from the
local values before the merge. -/
def mergePreAcceptAttributes (inst : Instance) (responses : List Instance) :
    Instance × Bool :=
  let deps := mergeDependencies inst.Dependencies.toFinset responses
  let seq := mergeSequence inst.Sequence responses
  let changes : Bool :=
    if deps = inst.Dependencies.toFinset ∧ seq = inst.Sequence then false else true
  ({ inst with Dependencies := deps.sort (· ≤ ·), Sequence := seq }, changes)

/-! ## Basic lemmas about the scope state -/

/-- A scope state is well formed when every stored instance sits under its
own id; every state the Go code builds has this shape, since `instances.Add`
keys the map by `instance.InstanceID`. -/
def WellFormedScope (s : ScopeState) : Prop :=
  ∀ iid inst, s.get iid = some inst → inst.InstanceID = iid

theorem get_bumpSeq (s : ScopeState) (seq iid : Nat) :
    (s.bumpSeq seq).get iid = s.get iid := rfl

theorem get_addInst (s : ScopeState) (inst : Instance) (iid : Nat) :
    (s.addInst inst).get iid = if iid = inst.InstanceID then some inst else s.get iid := rfl

theorem obsStatus_some (s : ScopeState) (iid : Nat) (inst : Instance)
    (h : s.get iid = some inst) : obsStatus s iid = inst.Status := by
  simp [obsStatus, h]

theorem obsStatus_none (s : ScopeState) (iid : Nat) (h : s.get iid = none) :
    obsStatus s iid = 0 := by
  simp [obsStatus, h]

theorem obsBallot_some (s : ScopeState) (iid : Nat) (inst : Instance)
    (h : s.get iid = some inst) : obsBallot s iid = inst.MaxBallot := by
  simp [obsBallot, h]

theorem obsBallot_none (s : ScopeState) (iid : Nat) (h : s.get iid = none) :
    obsBallot s iid = 0 := by
  simp [obsBallot, h]

theorem obsStatus_update (s : ScopeState) (upd : Instance) (iid : Nat) :
    obsStatus ((s.addInst upd).bumpSeq upd.Sequence) iid
      = if iid = upd.InstanceID then upd.Status else obsStatus s iid := by
  unfold obsStatus
  rw [get_bumpSeq, get_addInst]
  by_cases h : iid = upd.InstanceID <;> simp [h]

theorem obsBallot_update (s : ScopeState) (upd : Instance) (iid : Nat) :
    obsBallot ((s.addInst upd).bumpSeq upd.Sequence) iid
      = if iid = upd.InstanceID then upd.MaxBallot else obsBallot s iid := by
  unfold obsBallot
  rw [get_bumpSeq, get_addInst]
  by_cases h : iid = upd.InstanceID <;> simp [h]

theorem wf_addInst (s : ScopeState) (inst : Instance) (h : WellFormedScope s) :
    WellFormedScope (s.addInst inst) := by
  intro iid j hj
  rw [get_addInst] at hj
  by_cases hc : iid = inst.InstanceID
  · simp [hc] at hj
    subst hj
    exact hc.symm
  · simp [hc] at hj
    exact h iid j hj

theorem wf_bumpSeq (s : ScopeState) (seq : Nat) (h : WellFormedScope s) :
    WellFormedScope (s.bumpSeq seq) := by
  intro iid j hj
  rw [get_bumpSeq] at hj
  exact h iid j hj

theorem wf_preAccept (s : ScopeState) (inst : Instance) (h : WellFormedScope s) :
    WellFormedScope (preAcceptInstanceUnsafe s inst) := by
  unfold preAcceptInstanceUnsafe
  cases hg : s.get inst.InstanceID with
  | none => exact wf_bumpSeq _ _ (wf_addInst _ _ h)
  | some existing =>
    by_cases hs : existing.Status > INSTANCE_PREACCEPTED
    · simpa [hs] using h
    · simpa [hs] using wf_bumpSeq _ _ (wf_addInst _ _ h)

theorem wf_accept (s : ScopeState) (inst : Instance) (h : WellFormedScope s) :
    WellFormedScope (acceptInstanceUnsafe s inst) := by
  unfold acceptInstanceUnsafe
  cases hg : s.get inst.InstanceID with
  | none => exact wf_bumpSeq _ _ (wf_addInst _ _ h)
  | some existing =>
    by_cases hs : existing.Status > INSTANCE_ACCEPTED
    · simpa [hs] using h
    · simpa [hs] using wf_bumpSeq _ _ (wf_addInst _ _ h)

theorem wf_commit (s : ScopeState) (inst : Instance) (incr : Bool)
    (h : WellFormedScope s) : WellFormedScope (commitInstanceUnsafe s inst incr) := by
  unfold commitInstanceUnsafe
  cases hg : s.get inst.InstanceID with
  | none => exact wf_bumpSeq _ _ (wf_addInst _ _ h)
  | some existing =>
    by_cases hs : existing.Status > INSTANCE_COMMITTED
    · simpa [hs] using h
    · simpa [hs] using wf_bumpSeq _ _ (wf_addInst _ _ h)

theorem wf_addMissingOne (s : ScopeState) (inst : Instance) (h : WellFormedScope s) :
    WellFormedScope (addMissingInstanceOne s inst) := by
  unfold addMissingInstanceOne
  by_cases h0 : (s.get inst.InstanceID).isSome
  · simpa [h0] using h
  · have h1 : WellFormedScope
        (if inst.Status = INSTANCE_PREACCEPTED then preAcceptInstanceUnsafe s inst
         else if inst.Status = INSTANCE_ACCEPTED then acceptInstanceUnsafe s inst
         else if inst.Status = INSTANCE_COMMITTED ∨ inst.Status = INSTANCE_EXECUTED then
           commitInstanceUnsafe s inst false
         else s) := by
      split
      · exact wf_preAccept _ _ h
      · split
        · exact wf_accept _ _ h
        · split
          · exact wf_commit _ _ _ h
          · exact h
    have h2 : ∀ t : ScopeState, WellFormedScope t →
        WellFormedScope (if (t.get inst.InstanceID).isSome then t else t.addInst inst) := by
      intro t ht
      split
      · exact ht
      · exact wf_addInst _ _ ht
    simpa [h0] using h2 _ h1

theorem wf_addMissing (insts : List Instance) : ∀ (s : ScopeState),
    WellFormedScope s → WellFormedScope (addMissingInstancesUnsafe s insts) := by
  induction insts with
  | nil => intro s h; exact h
  | cons a l ih =>
    intro s h
    exact ih _ (wf_addMissingOne s a h)

theorem wf_handleAccept (s : ScopeState) (request : AcceptRequest)
    (h : WellFormedScope s) : WellFormedScope (HandleAccept s request).1 := by
  unfold HandleAccept
  have h1 := wf_addMissing request.MissingInstances s h
  cases hg : (addMissingInstancesUnsafe s request.MissingInstances).get
      request.Instance.InstanceID with
  | none => simpa [hg] using wf_accept _ _ h1
  | some inst =>
    by_cases hb : inst.MaxBallot ≥ request.Instance.MaxBallot
    · simpa [hg, hb] using h1
    · simpa [hg, hb] using wf_accept _ _ h1

theorem wf_handlePrepare (s : ScopeState) (request : PrepareRequest)
    (h : WellFormedScope s) : WellFormedScope (HandlePrepare s request).1 := by
  unfold HandlePrepare
  cases hg : s.get request.InstanceID with
  | none => simpa [hg] using h
  | some inst =>
    by_cases hb : request.Ballot > inst.MaxBallot
    · have : WellFormedScope (s.addInst (inst.updateBallot request.Ballot)) :=
        wf_addInst _ _ h
      simpa [hg, hb] using this
    · simpa [hg, hb] using h

theorem wf_applyScopeOp (s : ScopeState) (op : ScopeOp) (h : WellFormedScope s) :
    WellFormedScope (applyScopeOp s op) := by
  cases op with
  | preaccept inst => exact wf_preAccept s inst h
  | accept inst => exact wf_accept s inst h
  | commit inst incr => exact wf_commit s inst incr h
  | handleAccept request => exact wf_handleAccept s request h
  | handleCommit inst => exact wf_commit s inst false h
  | handlePrepare request => exact wf_handlePrepare s request h
  | addMissing insts => exact wf_addMissing insts s h

/-! ## Status and ballot monotonicity lemmas -/

theorem preAccept_status_mono (s : ScopeState) (inst : Instance) (iid : Nat)
    (hw : WellFormedScope s) :
    obsStatus s iid ≤ obsStatus (preAcceptInstanceUnsafe s inst) iid := by
  unfold preAcceptInstanceUnsafe
  cases hg : s.get inst.InstanceID with
  | none =>
    rw [obsStatus_update]
    by_cases hi : iid = inst.InstanceID
    · rw [hi, obsStatus_none s _ hg]
      simp [hi]
    · simp [hi]
  | some existing =>
    by_cases hs : existing.Status > INSTANCE_PREACCEPTED
    · simp [hs]
    · have hkey : existing.InstanceID = inst.InstanceID := hw _ _ hg
      simp only [hs, if_false]
      rw [obsStatus_update]
      by_cases hi : iid = inst.InstanceID
      · have : obsStatus s iid = existing.Status := by
          rw [hi]; exact obsStatus_some _ _ _ hg
        rw [this]
        simp only [hkey, hi]
        simp
        omega
      · simp [hkey, hi]

theorem accept_status_mono (s : ScopeState) (inst : Instance) (iid : Nat)
    (hw : WellFormedScope s) :
    obsStatus s iid ≤ obsStatus (acceptInstanceUnsafe s inst) iid := by
  unfold acceptInstanceUnsafe
  cases hg : s.get inst.InstanceID with
  | none =>
    rw [obsStatus_update]
    by_cases hi : iid = inst.InstanceID
    · rw [hi, obsStatus_none s _ hg]
      simp [hi]
    · simp [hi]
  | some existing =>
    by_cases hs : existing.Status > INSTANCE_ACCEPTED
    · simp [hs]
    · have hkey : existing.InstanceID = inst.InstanceID := hw _ _ hg
      simp only [hs, if_false]
      rw [obsStatus_update]
      by_cases hi : iid = inst.InstanceID
      · have : obsStatus s iid = existing.Status := by
          rw [hi]; exact obsStatus_some _ _ _ hg
        rw [this]
        simp only [hkey, hi]
        simp
        omega
      · simp [hkey, hi]

theorem commit_status_mono (s : ScopeState) (inst : Instance) (incr : Bool) (iid : Nat)
    (hw : WellFormedScope s) :
    obsStatus s iid ≤ obsStatus (commitInstanceUnsafe s inst incr) iid := by
  unfold commitInstanceUnsafe
  cases hg : s.get inst.InstanceID with
  | none =>
    rw [obsStatus_update]
    by_cases hi : iid = inst.InstanceID
    · rw [hi, obsStatus_none s _ hg]
      simp [hi]
    · simp [hi]
  | some existing =>
    by_cases hs : existing.Status > INSTANCE_COMMITTED
    · simp [hs]
    · have hkey : existing.InstanceID = inst.InstanceID := hw _ _ hg
      simp only [hs, if_false]
      rw [obsStatus_update]
      by_cases hi : iid = inst.InstanceID
      · have : obsStatus s iid = existing.Status := by
          rw [hi]; exact obsStatus_some _ _ _ hg
        rw [this]
        simp only [hkey, hi]
        simp
        omega
      · simp [hkey, hi]

theorem preAccept_get_other (s : ScopeState) (inst : Instance) (iid : Nat)
    (hi : iid ≠ inst.InstanceID) (hw : WellFormedScope s) :
    (preAcceptInstanceUnsafe s inst).get iid = s.get iid := by
  unfold preAcceptInstanceUnsafe
  cases hg : s.get inst.InstanceID with
  | none =>
    rw [get_bumpSeq, get_addInst]
    simp [hi]
  | some existing =>
    have hkey : existing.InstanceID = inst.InstanceID := hw _ _ hg
    by_cases hs : existing.Status > INSTANCE_PREACCEPTED
    · simp [hs]
    · simp only [hs, if_false]
      rw [get_bumpSeq, get_addInst]
      simp [hkey, hi]

theorem accept_get_other (s : ScopeState) (inst : Instance) (iid : Nat)
    (hi : iid ≠ inst.InstanceID) (hw : WellFormedScope s) :
    (acceptInstanceUnsafe s inst).get iid = s.get iid := by
  unfold acceptInstanceUnsafe
  cases hg : s.get inst.InstanceID with
  | none =>
    rw [get_bumpSeq, get_addInst]
    simp [hi]
  | some existing =>
    have hkey : existing.InstanceID = inst.InstanceID := hw _ _ hg
    by_cases hs : existing.Status > INSTANCE_ACCEPTED
    · simp [hs]
    · simp only [hs, if_false]
      rw [get_bumpSeq, get_addInst]
      simp [hkey, hi]

theorem commit_get_other (s : ScopeState) (inst : Instance) (incr : Bool) (iid : Nat)
    (hi : iid ≠ inst.InstanceID) (hw : WellFormedScope s) :
    (commitInstanceUnsafe s inst incr).get iid = s.get iid := by
  unfold commitInstanceUnsafe
  cases hg : s.get inst.InstanceID with
  | none =>
    rw [get_bumpSeq, get_addInst]
    simp [hi]
  | some existing =>
    have hkey : existing.InstanceID = inst.InstanceID := hw _ _ hg
    by_cases hs : existing.Status > INSTANCE_COMMITTED
    · simp [hs]
    · simp only [hs, if_false]
      rw [get_bumpSeq, get_addInst]
      simp [hkey, hi]

theorem addMissingOne_get_other (s : ScopeState) (inst : Instance) (iid : Nat)
    (hi : iid ≠ inst.InstanceID) (hw : WellFormedScope s) :
    (addMissingInstanceOne s inst).get iid = s.get iid := by
  unfold addMissingInstanceOne
  by_cases h0 : (s.get inst.InstanceID).isSome
  · simp [h0]
  · have hdisp : (if inst.Status = INSTANCE_PREACCEPTED then preAcceptInstanceUnsafe s inst
        else if inst.Status = INSTANCE_ACCEPTED then acceptInstanceUnsafe s inst
        else if inst.Status = INSTANCE_COMMITTED ∨ inst.Status = INSTANCE_EXECUTED then
          commitInstanceUnsafe s inst false
        else s).get iid = s.get iid := by
      split
      · exact preAccept_get_other s inst iid hi hw
      · split
        · exact accept_get_other s inst iid hi hw
        · split
          · exact commit_get_other s inst false iid hi hw
          · rfl
    have hlast : ∀ t : ScopeState, t.get iid = s.get iid →
        (if (t.get inst.InstanceID).isSome then t else t.addInst inst).get iid = s.get iid := by
      intro t ht
      split
      · exact ht
      · rw [get_addInst]
        simp [hi, ht]
    simpa [h0] using hlast _ hdisp

theorem addMissingOne_mono (s : ScopeState) (inst : Instance) (iid : Nat)
    (hw : WellFormedScope s) :
    obsStatus s iid ≤ obsStatus (addMissingInstanceOne s inst) iid
    ∧ obsBallot s iid ≤ obsBallot (addMissingInstanceOne s inst) iid := by
  by_cases hi : iid = inst.InstanceID
  · unfold addMissingInstanceOne
    by_cases h0 : (s.get inst.InstanceID).isSome
    · simp [h0]
    · have hgn : s.get iid = none := by
        rw [hi]
        cases hg : s.get inst.InstanceID with
        | none => rfl
        | some v => rw [hg] at h0; simp at h0
      rw [obsStatus_none _ _ hgn, obsBallot_none _ _ hgn]
      exact ⟨Nat.zero_le _, Nat.zero_le _⟩
  · have := addMissingOne_get_other s inst iid hi hw
    unfold obsStatus obsBallot
    rw [this]
    exact ⟨Nat.le_refl _, Nat.le_refl _⟩

theorem addMissing_mono (insts : List Instance) : ∀ (s : ScopeState) (iid : Nat),
    WellFormedScope s →
    obsStatus s iid ≤ obsStatus (addMissingInstancesUnsafe s insts) iid
    ∧ obsBallot s iid ≤ obsBallot (addMissingInstancesUnsafe s insts) iid := by
  induction insts with
  | nil => intro s iid _; exact ⟨Nat.le_refl _, Nat.le_refl _⟩
  | cons a l ih =>
    intro s iid hw
    have h1 := addMissingOne_mono s a iid hw
    have h2 := ih (addMissingInstanceOne s a) iid (wf_addMissingOne s a hw)
    exact ⟨Nat.le_trans h1.1 h2.1, Nat.le_trans h1.2 h2.2⟩

theorem handleAccept_status_mono (s : ScopeState) (request : AcceptRequest) (iid : Nat)
    (hw : WellFormedScope s) :
    obsStatus s iid ≤ obsStatus (HandleAccept s request).1 iid := by
  unfold HandleAccept
  have hw1 := wf_addMissing request.MissingInstances s hw
  have h1 := (addMissing_mono request.MissingInstances s iid hw).1
  cases hg : (addMissingInstancesUnsafe s request.MissingInstances).get
      request.Instance.InstanceID with
  | none =>
    simp only [hg]
    exact Nat.le_trans h1 (accept_status_mono _ _ iid hw1)
  | some inst =>
    by_cases hb : inst.MaxBallot ≥ request.Instance.MaxBallot
    · simpa [hg, hb] using h1
    · simp only [hg, hb, if_false]
      exact Nat.le_trans h1 (accept_status_mono _ _ iid hw1)

theorem obsStatus_addInst (s : ScopeState) (upd : Instance) (iid : Nat) :
    obsStatus (s.addInst upd) iid
      = if iid = upd.InstanceID then upd.Status else obsStatus s iid := by
  unfold obsStatus
  rw [get_addInst]
  by_cases h : iid = upd.InstanceID <;> simp [h]

theorem obsBallot_addInst (s : ScopeState) (upd : Instance) (iid : Nat) :
    obsBallot (s.addInst upd) iid
      = if iid = upd.InstanceID then upd.MaxBallot else obsBallot s iid := by
  unfold obsBallot
  rw [get_addInst]
  by_cases h : iid = upd.InstanceID <;> simp [h]

theorem handleAccept_ballot_mono (s : ScopeState) (request : AcceptRequest) (iid : Nat)
    (hw : WellFormedScope s) :
    obsBallot s iid ≤ obsBallot (HandleAccept s request).1 iid := by
  have hw1 := wf_addMissing request.MissingInstances s hw
  have h1 := (addMissing_mono request.MissingInstances s iid hw).2
  cases hg : (addMissingInstancesUnsafe s request.MissingInstances).get
      request.Instance.InstanceID with
  | none =>
    have hstate : (HandleAccept s request).1
        = acceptInstanceUnsafe (addMissingInstancesUnsafe s request.MissingInstances)
            request.Instance := by
      unfold HandleAccept
      simp only [hg]
    rw [hstate]
    refine Nat.le_trans h1 ?_
    by_cases hi : iid = request.Instance.InstanceID
    · have hz : obsBallot (addMissingInstancesUnsafe s request.MissingInstances) iid = 0 := by
        rw [hi]
        exact obsBallot_none _ _ hg
      rw [hz]
      exact Nat.zero_le _
    · unfold obsBallot
      rw [accept_get_other _ _ _ hi hw1]
  | some inst =>
    by_cases hb : inst.MaxBallot ≥ request.Instance.MaxBallot
    · have hstate : (HandleAccept s request).1
          = addMissingInstancesUnsafe s request.MissingInstances := by
        unfold HandleAccept
        simp only [hg]
        simp [hb]
      rw [hstate]
      exact h1
    · have hstate : (HandleAccept s request).1
          = acceptInstanceUnsafe (addMissingInstancesUnsafe s request.MissingInstances)
              request.Instance := by
        unfold HandleAccept
        simp only [hg]
        simp [hb]
      rw [hstate]
      refine Nat.le_trans h1 ?_
      by_cases hi : iid = request.Instance.InstanceID
      · have hbal : obsBallot (addMissingInstancesUnsafe s request.MissingInstances) iid
            = inst.MaxBallot := by
          rw [hi]
          exact obsBallot_some _ _ _ hg
        rw [hbal]
        have hkey : inst.InstanceID = request.Instance.InstanceID := hw1 _ _ hg
        unfold acceptInstanceUnsafe
        simp only [hg]
        by_cases hs : inst.Status > INSTANCE_ACCEPTED
        · rw [if_pos hs, hbal]
        · simp only [hs, if_false]
          rw [obsBallot_update]
          simp only [hkey, hi, if_pos]
          simp
          omega
      · unfold obsBallot
        rw [accept_get_other _ _ _ hi hw1]

theorem handlePrepare_mono (s : ScopeState) (request : PrepareRequest) (iid : Nat)
    (hw : WellFormedScope s) :
    obsStatus s iid ≤ obsStatus (HandlePrepare s request).1 iid
    ∧ obsBallot s iid ≤ obsBallot (HandlePrepare s request).1 iid := by
  cases hg : s.get request.InstanceID with
  | none =>
    have hstate : (HandlePrepare s request).1 = s := by
      unfold HandlePrepare
      rw [hg]
    rw [hstate]
    exact ⟨Nat.le_refl _, Nat.le_refl _⟩
  | some inst =>
    have hkey : inst.InstanceID = request.InstanceID := hw _ _ hg
    by_cases hb : request.Ballot > inst.MaxBallot
    · have hstate : (HandlePrepare s request).1
          = s.addInst (inst.updateBallot request.Ballot) := by
        unfold HandlePrepare
        rw [hg]
        simp [hb]
      rw [hstate]
      have hid2 : (inst.updateBallot request.Ballot).InstanceID = request.InstanceID := by
        unfold Instance.updateBallot
        split <;> simpa using hkey
      have hstat : (inst.updateBallot request.Ballot).Status = inst.Status := by
        unfold Instance.updateBallot
        split <;> rfl
      have hbal : inst.MaxBallot ≤ (inst.updateBallot request.Ballot).MaxBallot := by
        unfold Instance.updateBallot
        split <;> simp <;> omega
      constructor
      · rw [obsStatus_addInst]
        by_cases hi : iid = (inst.updateBallot request.Ballot).InstanceID
        · have hold : obsStatus s iid = inst.Status := by
            rw [hi, hid2]
            exact obsStatus_some _ _ _ hg
          rw [hold, if_pos hi, hstat]
        · rw [if_neg hi]
      · rw [obsBallot_addInst]
        by_cases hi : iid = (inst.updateBallot request.Ballot).InstanceID
        · have hold : obsBallot s iid = inst.MaxBallot := by
            rw [hi, hid2]
            exact obsBallot_some _ _ _ hg
          rw [hold, if_pos hi]
          exact hbal
        · rw [if_neg hi]
    · have hstate : (HandlePrepare s request).1 = s := by
        unfold HandlePrepare
        rw [hg]
        simp [hb]
      rw [hstate]
      exact ⟨Nat.le_refl _, Nat.le_refl _⟩

/-- Apply a whole sequence of operations. -/
def applyScopeOps (s : ScopeState) (ops : List ScopeOp) : ScopeState :=
  ops.foldl applyScopeOp s

theorem applyScopeOp_status_mono (s : ScopeState) (op : ScopeOp) (iid : Nat)
    (hw : WellFormedScope s) :
    obsStatus s iid ≤ obsStatus (applyScopeOp s op) iid := by
  cases op with
  | preaccept inst => exact preAccept_status_mono s inst iid hw
  | accept inst => exact accept_status_mono s inst iid hw
  | commit inst incr => exact commit_status_mono s inst incr iid hw
  | handleAccept request => exact handleAccept_status_mono s request iid hw
  | handleCommit inst => exact commit_status_mono s inst false iid hw
  | handlePrepare request => exact (handlePrepare_mono s request iid hw).1
  | addMissing insts => exact (addMissing_mono insts s iid hw).1

theorem applyScopeOps_status_mono (ops : List ScopeOp) : ∀ (s : ScopeState) (iid : Nat),
    WellFormedScope s → obsStatus s iid ≤ obsStatus (applyScopeOps s ops) iid := by
  induction ops with
  | nil => intro s iid _; exact Nat.le_refl _
  | cons op l ih =>
    intro s iid hw
    exact Nat.le_trans (applyScopeOp_status_mono s op iid hw)
      (ih (applyScopeOp s op) iid (wf_applyScopeOp s op hw))

/-- Claim C1, as amended.  Over every sequence of embedded operations
(preaccept, accept, commit, accept/commit/prepare message handling, missing
instance absorption) starting from a well-formed scope, the observed status
of every instance is monotone non-decreasing; the observed max ballot is
monotone non-decreasing across the ballot-guarded message handlers
(`HandleAccept`, `HandlePrepare`).  It is not monotone across the accept and
commit transitions themselves, which overwrite `MaxBallot` with the ballot
carried by the message (see the counterexample). -/
theorem status_ballot_monotonicity :
    (∀ (s : ScopeState) (ops : List ScopeOp) (iid : Nat), WellFormedScope s →
      obsStatus s iid ≤ obsStatus (applyScopeOps s ops) iid)
    ∧ (∀ (s : ScopeState) (request : AcceptRequest) (iid : Nat), WellFormedScope s →
      obsBallot s iid ≤ obsBallot (applyScopeOp s (ScopeOp.handleAccept request)) iid)
    ∧ (∀ (s : ScopeState) (request : PrepareRequest) (iid : Nat), WellFormedScope s →
      obsBallot s iid ≤ obsBallot (applyScopeOp s (ScopeOp.handlePrepare request)) iid) := by
  refine ⟨?_, ?_, ?_⟩
  · intro s ops iid hw
    exact applyScopeOps_status_mono ops s iid hw
  · intro s request iid hw
    exact handleAccept_ballot_mono s request iid hw
  · intro s request iid hw
    exact (handlePrepare_mono s request iid hw).2

/-- Witness for the amended claim C1 at a concrete state and operation
sequence. -/
theorem status_ballot_monotonicity_witness :
    obsStatus (emptyScope.addInst { InstanceID := 0, MaxBallot := 3, Status := 1 }) 0
      ≤ obsStatus (applyScopeOps (emptyScope.addInst { InstanceID := 0, MaxBallot := 3, Status := 1 })
          [ScopeOp.commit { InstanceID := 0, MaxBallot := 7 } false]) 0 := by
  have hw : WellFormedScope (emptyScope.addInst { InstanceID := 0, MaxBallot := 3, Status := 1 }) := by
    intro iid inst h
    rw [get_addInst] at h
    by_cases hc : iid = 0
    · subst hc
      simp at h
      rw [← h]
    · simp [hc, emptyScope, ScopeState.get] at h
  exact status_ballot_monotonicity.1
    (emptyScope.addInst { InstanceID := 0, MaxBallot := 3, Status := 1 })
    [ScopeOp.commit { InstanceID := 0, MaxBallot := 7 } false] 0 hw

/-- Claim C1 counterexample: handling a Commit message whose instance carries
a lower ballot than the locally recorded one overwrites `max_ballot`
downward (commitInstanceUnsafe copies the message ballot with no guard), so
`max_ballot` is not monotone over all operations. -/
theorem commit_lowers_max_ballot :
    obsBallot (emptyScope.addInst
      { InstanceID := 0, MaxBallot := 5, Status := INSTANCE_PREACCEPTED }) 0 = 5
    ∧ obsBallot (applyScopeOp
        (emptyScope.addInst { InstanceID := 0, MaxBallot := 5, Status := INSTANCE_PREACCEPTED })
        (ScopeOp.handleCommit { InstanceID := 0, MaxBallot := 2 })) 0 = 2 := by
  constructor <;> rfl

/-! ## Claim C9: the Accept ballot guard -/

/-- Claim C9, as amended.  An inbound Accept request is rejected — with the
locally recorded max ballot attached — precisely when the instance is known
locally (after the forwarded missing instances have been added) with
`max_ballot` at least (not strictly greater than) the ballot carried by the
request's instance. -/
theorem handleAccept_reject_iff (s : ScopeState) (request : AcceptRequest) :
    ((HandleAccept s request).2.Accepted = false ↔
      ∃ inst, (addMissingInstancesUnsafe s request.MissingInstances).get
          request.Instance.InstanceID = some inst
        ∧ request.Instance.MaxBallot ≤ inst.MaxBallot)
    ∧ (∀ inst, (addMissingInstancesUnsafe s request.MissingInstances).get
          request.Instance.InstanceID = some inst →
        request.Instance.MaxBallot ≤ inst.MaxBallot →
        (HandleAccept s request).2 = { Accepted := false, MaxBallot := inst.MaxBallot }) := by
  cases hg : (addMissingInstancesUnsafe s request.MissingInstances).get
      request.Instance.InstanceID with
  | none =>
    have hresp : (HandleAccept s request).2 = { Accepted := true, MaxBallot := 0 } := by
      unfold HandleAccept
      simp only [hg]
    constructor
    · rw [hresp]
      simp [hg]
    · intro inst hinst
      exact absurd hinst (by simp)
  | some inst0 =>
    by_cases hb : inst0.MaxBallot ≥ request.Instance.MaxBallot
    · have hresp : (HandleAccept s request).2
          = { Accepted := false, MaxBallot := inst0.MaxBallot } := by
        unfold HandleAccept
        simp only [hg]
        simp [hb]
      constructor
      · rw [hresp]
        constructor
        · intro _
          exact ⟨inst0, rfl, hb⟩
        · intro _
          rfl
      · intro inst1 hinst1 _
        cases hinst1
        exact hresp
    · have hresp : (HandleAccept s request).2 = { Accepted := true, MaxBallot := 0 } := by
        unfold HandleAccept
        simp only [hg]
        simp [hb]
      constructor
      · rw [hresp]
        constructor
        · intro habs
          exact absurd habs (by simp)
        · intro ⟨inst1, hinst1, hle1⟩
          cases hinst1
          exact absurd hle1 hb
      · intro inst1 hinst1 hle1
        cases hinst1
        exact absurd hle1 hb

/-- Witness for the amended claim C9 at a concrete state and request. -/
theorem handleAccept_reject_iff_witness :
    (HandleAccept
        (emptyScope.addInst { InstanceID := 0, MaxBallot := 4, Status := INSTANCE_PREACCEPTED })
        { Instance := { InstanceID := 0, MaxBallot := 3 } }).2
      = { Accepted := false, MaxBallot := 4 } :=
  (handleAccept_reject_iff
      (emptyScope.addInst { InstanceID := 0, MaxBallot := 4, Status := INSTANCE_PREACCEPTED })
      { Instance := { InstanceID := 0, MaxBallot := 3 } }).2
    { InstanceID := 0, MaxBallot := 4, Status := INSTANCE_PREACCEPTED }
    (by rfl) (by decide)

/-- Claim C9 counterexample: a request whose ballot exactly equals the
locally recorded `max_ballot` is also rejected, although the claim predicates
rejection on the carried ballot being strictly lower.  Here both ballots are
1 and the reply is `Accepted = false`. -/
theorem handleAccept_equal_ballot_rejected :
    obsBallot (emptyScope.addInst
      { InstanceID := 0, MaxBallot := 1, Status := INSTANCE_PREACCEPTED }) 0 = 1
    ∧ (HandleAccept
        (emptyScope.addInst { InstanceID := 0, MaxBallot := 1, Status := INSTANCE_PREACCEPTED })
        { Instance := { InstanceID := 0, MaxBallot := 1 } }).2.Accepted = false
    ∧ ¬ (1 : Nat) < 1 := by
  refine ⟨rfl, rfl, by decide⟩

/-! ## Claim C10: missing instances are stored before the ballot check -/

theorem preAccept_get_some (s : ScopeState) (inst : Instance) (iid : Nat)
    (h : (s.get iid).isSome) : ((preAcceptInstanceUnsafe s inst).get iid).isSome := by
  unfold preAcceptInstanceUnsafe
  cases hg : s.get inst.InstanceID with
  | none =>
    rw [get_bumpSeq, get_addInst]
    by_cases hi : iid = inst.InstanceID
    · simp [hi]
    · simp [hi, h]
  | some existing =>
    by_cases hs : existing.Status > INSTANCE_PREACCEPTED
    · simpa [hs] using h
    · simp only [hs, if_false]
      rw [get_bumpSeq, get_addInst]
      by_cases hi : iid = existing.InstanceID
      · simp [hi]
      · simp [hi, h]

theorem accept_get_some (s : ScopeState) (inst : Instance) (iid : Nat)
    (h : (s.get iid).isSome) : ((acceptInstanceUnsafe s inst).get iid).isSome := by
  unfold acceptInstanceUnsafe
  cases hg : s.get inst.InstanceID with
  | none =>
    rw [get_bumpSeq, get_addInst]
    by_cases hi : iid = inst.InstanceID
    · simp [hi]
    · simp [hi, h]
  | some existing =>
    by_cases hs : existing.Status > INSTANCE_ACCEPTED
    · simpa [hs] using h
    · simp only [hs, if_false]
      rw [get_bumpSeq, get_addInst]
      by_cases hi : iid = existing.InstanceID
      · simp [hi]
      · simp [hi, h]

theorem commit_get_some (s : ScopeState) (inst : Instance) (incr : Bool) (iid : Nat)
    (h : (s.get iid).isSome) : ((commitInstanceUnsafe s inst incr).get iid).isSome := by
  unfold commitInstanceUnsafe
  cases hg : s.get inst.InstanceID with
  | none =>
    rw [get_bumpSeq, get_addInst]
    by_cases hi : iid = inst.InstanceID
    · simp [hi]
    · simp [hi, h]
  | some existing =>
    by_cases hs : existing.Status > INSTANCE_COMMITTED
    · simpa [hs] using h
    · simp only [hs, if_false]
      rw [get_bumpSeq, get_addInst]
      by_cases hi : iid = existing.InstanceID
      · simp [hi]
      · simp [hi, h]

theorem addMissingOne_get_some (s : ScopeState) (inst : Instance) (iid : Nat)
    (h : (s.get iid).isSome) : ((addMissingInstanceOne s inst).get iid).isSome := by
  unfold addMissingInstanceOne
  by_cases h0 : (s.get inst.InstanceID).isSome
  · simpa [h0] using h
  · have hdisp : ((if inst.Status = INSTANCE_PREACCEPTED then preAcceptInstanceUnsafe s inst
        else if inst.Status = INSTANCE_ACCEPTED then acceptInstanceUnsafe s inst
        else if inst.Status = INSTANCE_COMMITTED ∨ inst.Status = INSTANCE_EXECUTED then
          commitInstanceUnsafe s inst false
        else s).get iid).isSome := by
      split
      · exact preAccept_get_some s inst iid h
      · split
        · exact accept_get_some s inst iid h
        · split
          · exact commit_get_some s inst false iid h
          · exact h
    have hlast : ∀ t : ScopeState, (t.get iid).isSome →
        ((if (t.get inst.InstanceID).isSome then t else t.addInst inst).get iid).isSome := by
      intro t ht
      split
      · exact ht
      · rw [get_addInst]
        split
        · simp
        · exact ht
    simpa [h0] using hlast _ hdisp

theorem addMissingOne_stores (s : ScopeState) (inst : Instance) :
    ((addMissingInstanceOne s inst).get inst.InstanceID).isSome := by
  unfold addMissingInstanceOne
  by_cases h0 : (s.get inst.InstanceID).isSome
  · simpa [h0] using h0
  · have hlast : ∀ t : ScopeState,
        ((if (t.get inst.InstanceID).isSome then t else t.addInst inst).get
          inst.InstanceID).isSome := by
      intro t
      by_cases ht : (t.get inst.InstanceID).isSome
      · simpa [ht] using ht
      · simp only [ht, Bool.false_eq_true, if_false]
        rw [get_addInst]
        simp
    simpa [h0] using hlast _

theorem addMissing_get_some (insts : List Instance) : ∀ (s : ScopeState) (iid : Nat),
    (s.get iid).isSome → ((addMissingInstancesUnsafe s insts).get iid).isSome := by
  induction insts with
  | nil => intro s iid h; exact h
  | cons a l ih =>
    intro s iid h
    exact ih _ iid (addMissingOne_get_some s a iid h)

theorem addMissing_stores_all (insts : List Instance) : ∀ (s : ScopeState) (m : Instance),
    m ∈ insts → ((addMissingInstancesUnsafe s insts).get m.InstanceID).isSome := by
  induction insts with
  | nil => intro s m h; cases h
  | cons a l ih =>
    intro s m h
    cases h with
    | head =>
      exact addMissing_get_some l (addMissingInstanceOne s a) a.InstanceID
        (addMissingOne_stores s a)
    | tail _ hm => exact ih _ m hm

/-- Claim C10: in the `HandleAccept` of manager_test.go the forwarded missing
instances are added to the local instance map before the ballot check, so a
request rejected for a stale ballot still leaves the missing instances stored
locally. -/
theorem handleAccept_stale_ballot_stores_missing (s : ScopeState) (request : AcceptRequest)
    (inst : Instance)
    (hinst : (addMissingInstancesUnsafe s request.MissingInstances).get
        request.Instance.InstanceID = some inst)
    (hstale : request.Instance.MaxBallot ≤ inst.MaxBallot) :
    (HandleAccept s request).2.Accepted = false
    ∧ ∀ m ∈ request.MissingInstances,
        (((HandleAccept s request).1).get m.InstanceID).isSome := by
  have hstate : (HandleAccept s request).1
      = addMissingInstancesUnsafe s request.MissingInstances := by
    unfold HandleAccept
    simp only [hinst]
    simp [hstale]
  have hresp : (HandleAccept s request).2.Accepted = false := by
    unfold HandleAccept
    simp only [hinst]
    simp [hstale]
  refine ⟨hresp, ?_⟩
  intro m hm
  rw [hstate]
  exact addMissing_stores_all request.MissingInstances s m hm

/-- Witness for claim C10: the forwarded missing instance is itself the one
whose recorded ballot then causes the rejection. -/
theorem handleAccept_stale_ballot_stores_missing_witness :
    (HandleAccept emptyScope
        { MissingInstances := [{ InstanceID := 0, MaxBallot := 3, Status := INSTANCE_PREACCEPTED }]
          Instance := { InstanceID := 0, MaxBallot := 2 } }).2.Accepted = false
    ∧ ∀ m ∈ [({ InstanceID := 0, MaxBallot := 3, Status := INSTANCE_PREACCEPTED } : Instance)],
        (((HandleAccept emptyScope
            { MissingInstances := [{ InstanceID := 0, MaxBallot := 3, Status := INSTANCE_PREACCEPTED }]
              Instance := { InstanceID := 0, MaxBallot := 2 } }).1).get m.InstanceID).isSome :=
  handleAccept_stale_ballot_stores_missing emptyScope
    { MissingInstances := [{ InstanceID := 0, MaxBallot := 3, Status := INSTANCE_PREACCEPTED }]
      Instance := { InstanceID := 0, MaxBallot := 2 } }
    { InstanceID := 0, MaxBallot := 3, Status := INSTANCE_PREACCEPTED }
    (by rfl) (by decide)

/-! ## Claim C3: quorum sizes -/

/-- Claim C3, as amended.  With `n - 1` remote replicas, the PreAccept and
Accept loops await `⌊n/2⌋ + 1` responses (the local node counted as one) for
every replica-set size `n ≥ 1`, and with `n = 1` no remote response is
awaited.  The Prepare loop, however, computes `⌊(n-1)/2⌋ + 1`, which agrees
with `⌊n/2⌋ + 1` only for odd `n` (so the claimed values for n = 1, 3, 5 do
hold). -/
theorem quorum_sizes (n : Nat) (hn : 1 ≤ n) :
    acceptQuorumSize (remoteReplicaCount n) = n / 2 + 1
    ∧ prepareQuorumSize (remoteReplicaCount n) = (n - 1) / 2 + 1
    ∧ (n % 2 = 1 → prepareQuorumSize (remoteReplicaCount n) = n / 2 + 1)
    ∧ remoteResponsesNeeded (acceptQuorumSize (remoteReplicaCount 1)) = 0
    ∧ remoteResponsesNeeded (prepareQuorumSize (remoteReplicaCount 1)) = 0
    ∧ acceptQuorumSize (remoteReplicaCount 3) = 2
    ∧ acceptQuorumSize (remoteReplicaCount 5) = 3
    ∧ prepareQuorumSize (remoteReplicaCount 3) = 2
    ∧ prepareQuorumSize (remoteReplicaCount 5) = 3 := by
  unfold acceptQuorumSize prepareQuorumSize remoteReplicaCount remoteResponsesNeeded
  omega

/-- Witness for the amended claim C3 at `n = 3`. -/
theorem quorum_sizes_witness :
    acceptQuorumSize (remoteReplicaCount 3) = 3 / 2 + 1 :=
  (quorum_sizes 3 (by decide)).1

/-- Claim C3 counterexample: with a replica set of size 2 the Prepare quorum
size is 1, not `⌊2/2⌋ + 1 = 2`, so Prepare succeeds on the local response
alone and the claimed formula fails for even replica-set sizes. -/
theorem prepare_quorum_even_counterexample :
    prepareQuorumSize (remoteReplicaCount 2) = 1
    ∧ prepareQuorumSize (remoteReplicaCount 2) ≠ 2 / 2 + 1
    ∧ remoteResponsesNeeded (prepareQuorumSize (remoteReplicaCount 2)) = 0 := by
  refine ⟨rfl, by decide, rfl⟩

/-! ## Claim C7: analyzePrepareResponses -/

theorem ballotStep_ge (a : Nat) (r : PrepareResponse) : a ≤ ballotStep a r := by
  unfold ballotStep
  cases hr : r.Instance with
  | none => exact Nat.le_refl _
  | some i =>
    show a ≤ if i.MaxBallot > a then i.MaxBallot else a
    split <;> omega

theorem foldl_ballotStep_ge (l : List PrepareResponse) : ∀ a : Nat,
    a ≤ l.foldl ballotStep a := by
  induction l with
  | nil => intro a; exact Nat.le_refl _
  | cons r0 l ih =>
    intro a
    exact Nat.le_trans (ballotStep_ge a r0) (ih (ballotStep a r0))

theorem foldl_ballotStep_bound (l : List PrepareResponse) : ∀ (a : Nat) (r : PrepareResponse),
    r ∈ l → ∀ i, r.Instance = some i → i.MaxBallot ≤ l.foldl ballotStep a := by
  induction l with
  | nil => intro a r hr; cases hr
  | cons r0 l ih =>
    intro a r hr i hi
    cases hr with
    | head =>
      have h1 : i.MaxBallot ≤ ballotStep a r0 := by
        unfold ballotStep
        rw [hi]
        show i.MaxBallot ≤ if i.MaxBallot > a then i.MaxBallot else a
        split <;> omega
      exact Nat.le_trans h1 (foldl_ballotStep_ge l _)
    | tail _ hm =>
      show i.MaxBallot ≤ l.foldl ballotStep (ballotStep a r0)
      exact ih _ r hm i hi

theorem maxResponseBallot_le (responses : List PrepareResponse) (r : PrepareResponse)
    (hr : r ∈ responses) (i : Instance) (hi : r.Instance = some i) :
    i.MaxBallot ≤ maxResponseBallot responses :=
  foldl_ballotStep_bound responses 0 r hr i hi

theorem maxResponseBallot_attained (l : List PrepareResponse) : ∀ a : Nat,
    (l.foldl ballotStep a = a ∧ ∀ r ∈ l, ∀ i, r.Instance = some i → i.MaxBallot ≤ a)
    ∨ (∃ r ∈ l, ∃ i, r.Instance = some i ∧ i.MaxBallot = l.foldl ballotStep a) := by
  induction l with
  | nil =>
    intro a
    exact Or.inl ⟨rfl, by intro r hr; cases hr⟩
  | cons r0 l ih =>
    intro a
    cases hr0 : r0.Instance with
    | none =>
      have hstep : ballotStep a r0 = a := by
        unfold ballotStep
        rw [hr0]
      rcases ih a with ⟨h1, h2⟩ | ⟨r, hr, i, hi, hbal⟩
      · left
        constructor
        · show l.foldl ballotStep (ballotStep a r0) = a
          rw [hstep]
          exact h1
        · intro r hr i hi
          cases hr with
          | head => rw [hr0] at hi; cases hi
          | tail _ hm => exact h2 r hm i hi
      · right
        refine ⟨r, List.mem_cons_of_mem _ hr, i, hi, ?_⟩
        show i.MaxBallot = l.foldl ballotStep (ballotStep a r0)
        rw [hstep]
        exact hbal
    | some i0 =>
      by_cases hgt : i0.MaxBallot > a
      · have hstep : ballotStep a r0 = i0.MaxBallot := by
          unfold ballotStep
          rw [hr0]
          simp [hgt]
        rcases ih i0.MaxBallot with ⟨h1, _⟩ | ⟨r, hr, i, hi, hbal⟩
        · right
          refine ⟨r0, List.mem_cons_self _ _, i0, hr0, ?_⟩
          show i0.MaxBallot = l.foldl ballotStep (ballotStep a r0)
          rw [hstep]
          exact h1.symm
        · right
          refine ⟨r, List.mem_cons_of_mem _ hr, i, hi, ?_⟩
          show i.MaxBallot = l.foldl ballotStep (ballotStep a r0)
          rw [hstep]
          exact hbal
      · have hstep : ballotStep a r0 = a := by
          unfold ballotStep
          rw [hr0]
          simp [hgt]
        rcases ih a with ⟨h1, h2⟩ | ⟨r, hr, i, hi, hbal⟩
        · left
          constructor
          · show l.foldl ballotStep (ballotStep a r0) = a
            rw [hstep]
            exact h1
          · intro r hr i hi
            cases hr with
            | head =>
              rw [hr0] at hi
              cases hi
              omega
            | tail _ hm => exact h2 r hm i hi
        · right
          refine ⟨r, List.mem_cons_of_mem _ hr, i, hi, ?_⟩
          show i.MaxBallot = l.foldl ballotStep (ballotStep a r0)
          rw [hstep]
          exact hbal

theorem statusSupAtBallot_ge (b : Nat) (l : List PrepareResponse) : ∀ r ∈ l, ∀ i,
    r.Instance = some i → b ≤ i.MaxBallot → i.Status ≤ statusSupAtBallot b l := by
  induction l with
  | nil => intro r hr; cases hr
  | cons r0 l ih =>
    intro r hr i hi hb
    cases hr with
    | head =>
      unfold statusSupAtBallot
      rw [hi]
      show i.Status ≤ if b ≤ i.MaxBallot then max i.Status (statusSupAtBallot b l)
        else statusSupAtBallot b l
      rw [if_pos hb]
      exact Nat.le_max_left _ _
    | tail _ hm =>
      have h1 := ih r hm i hi hb
      unfold statusSupAtBallot
      cases hr0 : r0.Instance with
      | none => exact h1
      | some i0 =>
        show i.Status ≤ if b ≤ i0.MaxBallot then max i0.Status (statusSupAtBallot b l)
          else statusSupAtBallot b l
        split
        · exact Nat.le_trans h1 (Nat.le_max_right _ _)
        · exact h1

theorem statusSupAtBallot_cons (b : Nat) (r : PrepareResponse) (l : List PrepareResponse) :
    statusSupAtBallot b (r :: l) = match r.Instance with
      | some inst => if b ≤ inst.MaxBallot then max inst.Status (statusSupAtBallot b l)
          else statusSupAtBallot b l
      | none => statusSupAtBallot b l := rfl

theorem analyze_foldl (B : Nat) (l : List PrepareResponse) : ∀ acc : Nat × Option Instance,
    (acc.2 = none → acc.1 = 0) →
    (∀ i, acc.2 = some i → i.Status = acc.1 ∧ B ≤ i.MaxBallot) →
    ((l.foldl (analyzeStep B) acc).1 = max acc.1 (statusSupAtBallot B l)
    ∧ (∀ i, (l.foldl (analyzeStep B) acc).2 = some i →
        i.Status = (l.foldl (analyzeStep B) acc).1 ∧ B ≤ i.MaxBallot
        ∧ (acc.2 = some i ∨ ∃ r ∈ l, r.Instance = some i))
    ∧ ((l.foldl (analyzeStep B) acc).2 = none → l.foldl (analyzeStep B) acc = acc)) := by
  induction l with
  | nil =>
    intro acc h0 hsome
    refine ⟨?_, ?_, ?_⟩
    · show acc.1 = max acc.1 (statusSupAtBallot B [])
      unfold statusSupAtBallot
      simp
    · intro i hi
      exact ⟨(hsome i hi).1, (hsome i hi).2, Or.inl hi⟩
    · intro _
      rfl
  | cons r0 l ih =>
    intro acc h0 hsome
    cases hr0 : r0.Instance with
    | none =>
      have hstep : analyzeStep B acc r0 = acc := by
        unfold analyzeStep
        rw [hr0]
      have hsup : statusSupAtBallot B (r0 :: l) = statusSupAtBallot B l := by
        rw [statusSupAtBallot_cons, hr0]
      have hmain := ih (analyzeStep B acc r0) (by rw [hstep]; exact h0)
        (by rw [hstep]; exact hsome)
      rw [hstep] at hmain
      refine ⟨?_, ?_, ?_⟩
      · show (l.foldl (analyzeStep B) (analyzeStep B acc r0)).1 = _
        rw [hstep, hsup]
        exact hmain.1
      · intro i hi
        have hi2 : (l.foldl (analyzeStep B) acc).2 = some i := by
          rw [← hstep]
          exact hi
        have h3 := hmain.2.1 i hi2
        refine ⟨?_, h3.2.1, ?_⟩
        · show i.Status = (l.foldl (analyzeStep B) (analyzeStep B acc r0)).1
          rw [hstep]
          exact h3.1
        · rcases h3.2.2 with h | ⟨r, hr, hri⟩
          · exact Or.inl h
          · exact Or.inr ⟨r, List.mem_cons_of_mem _ hr, hri⟩
      · intro hnone
        have hnone2 : (l.foldl (analyzeStep B) acc).2 = none := by
          rw [← hstep]
          exact hnone
        show l.foldl (analyzeStep B) (analyzeStep B acc r0) = acc
        rw [hstep]
        exact hmain.2.2 hnone2
    | some i0 =>
      by_cases hlt : i0.MaxBallot < B
      · have hstep : analyzeStep B acc r0 = acc := by
          unfold analyzeStep
          rw [hr0]
          simp [hlt]
        have hsup : statusSupAtBallot B (r0 :: l) = statusSupAtBallot B l := by
          rw [statusSupAtBallot_cons, hr0]
          show (if B ≤ i0.MaxBallot then max i0.Status (statusSupAtBallot B l)
            else statusSupAtBallot B l) = statusSupAtBallot B l
          rw [if_neg (by omega)]
        have hmain := ih (analyzeStep B acc r0) (by rw [hstep]; exact h0)
          (by rw [hstep]; exact hsome)
        rw [hstep] at hmain
        refine ⟨?_, ?_, ?_⟩
        · show (l.foldl (analyzeStep B) (analyzeStep B acc r0)).1 = _
          rw [hstep, hsup]
          exact hmain.1
        · intro i hi
          have hi2 : (l.foldl (analyzeStep B) acc).2 = some i := by
            rw [← hstep]
            exact hi
          have h3 := hmain.2.1 i hi2
          refine ⟨?_, h3.2.1, ?_⟩
          · show i.Status = (l.foldl (analyzeStep B) (analyzeStep B acc r0)).1
            rw [hstep]
            exact h3.1
          · rcases h3.2.2 with h | ⟨r, hr, hri⟩
            · exact Or.inl h
            · exact Or.inr ⟨r, List.mem_cons_of_mem _ hr, hri⟩
        · intro hnone
          have hnone2 : (l.foldl (analyzeStep B) acc).2 = none := by
            rw [← hstep]
            exact hnone
          show l.foldl (analyzeStep B) (analyzeStep B acc r0) = acc
          rw [hstep]
          exact hmain.2.2 hnone2
      · have hble : B ≤ i0.MaxBallot := by omega
        have hsup : statusSupAtBallot B (r0 :: l)
            = max i0.Status (statusSupAtBallot B l) := by
          rw [statusSupAtBallot_cons, hr0]
          show (if B ≤ i0.MaxBallot then max i0.Status (statusSupAtBallot B l)
            else statusSupAtBallot B l) = max i0.Status (statusSupAtBallot B l)
          rw [if_pos hble]
        by_cases hstat : i0.Status > acc.1
        · have hstep : analyzeStep B acc r0 = (i0.Status, some i0) := by
            unfold analyzeStep
            rw [hr0]
            simp [hlt, hstat]
          have hmain := ih (analyzeStep B acc r0)
            (by rw [hstep]; intro h; cases h)
            (by
              rw [hstep]
              intro i hi
              cases hi
              exact ⟨rfl, hble⟩)
          rw [hstep] at hmain
          refine ⟨?_, ?_, ?_⟩
          · show (l.foldl (analyzeStep B) (analyzeStep B acc r0)).1 = _
            rw [hstep, hsup]
            rw [hmain.1]
            have h4 : acc.1 ≤ max i0.Status (statusSupAtBallot B l) :=
              Nat.le_trans (Nat.le_of_lt hstat) (Nat.le_max_left _ _)
            rw [Nat.max_comm acc.1 _, Nat.max_eq_left h4]
          · intro i hi
            have hi2 : (l.foldl (analyzeStep B) (i0.Status, some i0)).2 = some i := by
              rw [← hstep]
              exact hi
            have h3 := hmain.2.1 i hi2
            refine ⟨?_, h3.2.1, ?_⟩
            · show i.Status = (l.foldl (analyzeStep B) (analyzeStep B acc r0)).1
              rw [hstep]
              exact h3.1
            · rcases h3.2.2 with h | ⟨r, hr, hri⟩
              · cases h
                exact Or.inr ⟨r0, List.mem_cons_self _ _, hr0⟩
              · exact Or.inr ⟨r, List.mem_cons_of_mem _ hr, hri⟩
          · intro hnone
            have hnone2 : (l.foldl (analyzeStep B) (i0.Status, some i0)).2 = none := by
              rw [← hstep]
              exact hnone
            have habs := hmain.2.2 hnone2
            rw [habs] at hnone2
            cases hnone2
        · have hstep : analyzeStep B acc r0 = acc := by
            unfold analyzeStep
            rw [hr0]
            simp [hlt, hstat]
          have hmain := ih (analyzeStep B acc r0) (by rw [hstep]; exact h0)
            (by rw [hstep]; exact hsome)
          rw [hstep] at hmain
          refine ⟨?_, ?_, ?_⟩
          · show (l.foldl (analyzeStep B) (analyzeStep B acc r0)).1 = _
            rw [hstep, hsup]
            rw [hmain.1]
            have h4 : i0.Status ≤ acc.1 := by omega
            rw [← Nat.max_assoc, Nat.max_eq_left h4]
          · intro i hi
            have hi2 : (l.foldl (analyzeStep B) acc).2 = some i := by
              rw [← hstep]
              exact hi
            have h3 := hmain.2.1 i hi2
            refine ⟨?_, h3.2.1, ?_⟩
            · show i.Status = (l.foldl (analyzeStep B) (analyzeStep B acc r0)).1
              rw [hstep]
              exact h3.1
            · rcases h3.2.2 with h | ⟨r, hr, hri⟩
              · exact Or.inl h
              · exact Or.inr ⟨r, List.mem_cons_of_mem _ hr, hri⟩
          · intro hnone
            have hnone2 : (l.foldl (analyzeStep B) acc).2 = none := by
              rw [← hstep]
              exact hnone
            show l.foldl (analyzeStep B) (analyzeStep B acc r0) = acc
            rw [hstep]
            exact hmain.2.2 hnone2

theorem anyResponseInstance_false (l : List PrepareResponse)
    (h : ∀ r ∈ l, r.Instance = none) : anyResponseInstance l = false := by
  unfold anyResponseInstance
  rw [List.any_eq_false]
  intro r hr
  rw [h r hr]
  simp

theorem analyze_none_of_all_none (responses : List PrepareResponse)
    (h : ∀ r ∈ responses, r.Instance = none) :
    analyzePrepareResponses responses = none := by
  unfold analyzePrepareResponses
  rw [anyResponseInstance_false responses h]
  simp

/-- Claim C7: `analyzePrepareResponses` returns nil iff every response
carried a nil instance; otherwise (provided every response instance carries
one of the four real statuses, all of which are at least PreAccepted) it
returns one of the response instances whose ballot equals the highest
response ballot and whose status is the highest status among the
highest-ballot instances. -/
theorem analyzePrepareResponses_spec (responses : List PrepareResponse)
    (_hne : responses ≠ []) :
    ((∀ r ∈ responses, r.Instance = none) → analyzePrepareResponses responses = none)
    ∧ ((∃ r ∈ responses, r.Instance.isSome)
        → (∀ r ∈ responses, ∀ inst, r.Instance = some inst →
            INSTANCE_PREACCEPTED ≤ inst.Status)
        → ∃ inst, analyzePrepareResponses responses = some inst
            ∧ (∃ r ∈ responses, r.Instance = some inst)
            ∧ inst.MaxBallot = maxResponseBallot responses
            ∧ inst.Status = statusSupAtBallot (maxResponseBallot responses) responses) := by
  constructor
  · exact analyze_none_of_all_none responses
  · intro hsome hstat
    rcases hsome with ⟨rw0, hrw0, hiw0⟩
    rcases Option.isSome_iff_exists.mp hiw0 with ⟨iw0, hiw0e⟩
    have hany : anyResponseInstance responses = true := by
      unfold anyResponseInstance
      rw [List.any_eq_true]
      exact ⟨rw0, hrw0, by rw [hiw0e]; rfl⟩
    -- some response instance attains the maximum ballot
    have hatt : ∃ r ∈ responses, ∃ i, r.Instance = some i
        ∧ i.MaxBallot = maxResponseBallot responses := by
      rcases maxResponseBallot_attained responses 0 with ⟨h1, h2⟩ | h
      · refine ⟨rw0, hrw0, iw0, hiw0e, ?_⟩
        have hb0 := h2 rw0 hrw0 iw0 hiw0e
        unfold maxResponseBallot
        omega
      · exact h
    rcases hatt with ⟨ra, hra, ia, hia, hba⟩
    have hsup1 : INSTANCE_PREACCEPTED ≤ statusSupAtBallot (maxResponseBallot responses)
        responses := by
      have h5 := statusSupAtBallot_ge (maxResponseBallot responses) responses ra hra ia hia
        (by omega)
      have h6 := hstat ra hra ia hia
      omega
    have hfold := analyze_foldl (maxResponseBallot responses) responses (0, none)
      (by intro _; rfl) (by intro i hi; cases hi)
    have hres1 : (responses.foldl (analyzeStep (maxResponseBallot responses)) (0, none)).1
        = statusSupAtBallot (maxResponseBallot responses) responses := by
      rw [hfold.1]
      simp
    cases hres2 : (responses.foldl (analyzeStep (maxResponseBallot responses)) (0, none)).2 with
    | none =>
      have habs := hfold.2.2 hres2
      have : (responses.foldl (analyzeStep (maxResponseBallot responses)) (0, none)).1 = 0 := by
        rw [habs]
      rw [hres1] at this
      unfold INSTANCE_PREACCEPTED at hsup1
      omega
    | some inst =>
      have h3 := hfold.2.1 inst hres2
      have hmem : ∃ r ∈ responses, r.Instance = some inst := by
        rcases h3.2.2 with h | h
        · cases h
        · exact h
      have hballe : inst.MaxBallot = maxResponseBallot responses := by
        rcases hmem with ⟨r, hr, hri⟩
        have hle := maxResponseBallot_le responses r hr inst hri
        have hge := h3.2.1
        omega
      refine ⟨inst, ?_, hmem, hballe, ?_⟩
      · unfold analyzePrepareResponses
        rw [hany]
        simpa using hres2
      · rw [h3.1, hres1]

/-! ## Claims C4 and C5: the dependency manager -/

theorem keyRelated_refl (p : Key) : keyRelated p p = true := by
  unfold keyRelated
  rw [Bool.or_eq_true]
  left
  rw [List.isPrefixOf_iff_prefix]

theorem keyRelated_iff (p q : Key) :
    keyRelated p q = true ↔ (q = p ∨ keyAncestor p q ∨ keyDescendant p q) := by
  unfold keyRelated keyAncestor keyDescendant
  rw [Bool.or_eq_true, List.isPrefixOf_iff_prefix, List.isPrefixOf_iff_prefix]
  by_cases hqp : q = p
  · subst hqp
    simp
  · constructor
    · rintro (h | h)
      · exact Or.inr (Or.inr ⟨h, hqp⟩)
      · exact Or.inr (Or.inl ⟨h, hqp⟩)
    · rintro (h | ⟨h1, _⟩ | ⟨h1, _⟩)
      · exact absurd h hqp
      · exact Or.inr h1
      · exact Or.inl h1

theorem mem_computeDeps_aux (p : Key) (w : Bool) (l : DepsState) :
    ∀ (acc : Finset Nat) (x : Nat),
    (x ∈ l.foldl
      (fun acc e => if keyRelated p e.1 then acc ∪ getLocalDeps e.2 w else acc) acc
    ↔ x ∈ acc ∨ ∃ e ∈ l, keyRelated p e.1 = true ∧ x ∈ getLocalDeps e.2 w) := by
  induction l with
  | nil =>
    intro acc x
    constructor
    · intro h
      exact Or.inl h
    · rintro (h | ⟨e, he, _, _⟩)
      · exact h
      · cases he
  | cons e0 l ih =>
    intro acc x
    show x ∈ l.foldl _
      (if keyRelated p e0.1 then acc ∪ getLocalDeps e0.2 w else acc) ↔ _
    rw [ih]
    by_cases h0 : keyRelated p e0.1 = true
    · rw [if_pos h0]
      constructor
      · rintro (h | ⟨e, he, hrel, hx⟩)
        · rcases Finset.mem_union.mp h with h1 | h2
          · exact Or.inl h1
          · exact Or.inr ⟨e0, List.mem_cons_self _ _, h0, h2⟩
        · exact Or.inr ⟨e, List.mem_cons_of_mem _ he, hrel, hx⟩
      · rintro (h | ⟨e, he, hrel, hx⟩)
        · exact Or.inl (Finset.mem_union_left _ h)
        · rcases List.mem_cons.mp he with heq | he2
          · subst heq
            exact Or.inl (Finset.mem_union_right _ hx)
          · exact Or.inr ⟨e, he2, hrel, hx⟩
    · rw [if_neg h0]
      constructor
      · rintro (h | ⟨e, he, hrel, hx⟩)
        · exact Or.inl h
        · exact Or.inr ⟨e, List.mem_cons_of_mem _ he, hrel, hx⟩
      · rintro (h | ⟨e, he, hrel, hx⟩)
        · exact Or.inl h
        · rcases List.mem_cons.mp he with heq | he2
          · subst heq
            exact absurd hrel h0
          · exact Or.inr ⟨e, he2, hrel, hx⟩

theorem mem_computeDeps (st : DepsState) (p : Key) (w : Bool) (x : Nat) :
    x ∈ computeDeps st p w
      ↔ ∃ e ∈ st, keyRelated p e.1 = true ∧ x ∈ getLocalDeps e.2 w := by
  unfold computeDeps
  rw [mem_computeDeps_aux]
  constructor
  · rintro (h | h)
    · exact absurd h (Finset.not_mem_empty x)
    · exact h
  · intro h
    exact Or.inr h

/-- Claim C4: the dependencies handed to a write are the union of the writes
and reads sets over the key's node, its ancestors and its descendants; the
dependencies handed to a read are the union of the writes sets only; the
instance's own id never appears. -/
theorem getAndSetDeps_deps_spec (st : DepsState) (p : Key) (selfId x : Nat) :
    (x ∈ (getAndSetDeps st p true selfId).1 ↔
      x ≠ selfId ∧ ∃ e ∈ st, (e.1 = p ∨ keyAncestor p e.1 ∨ keyDescendant p e.1)
        ∧ x ∈ e.2.writes ∪ e.2.reads)
    ∧ (x ∈ (getAndSetDeps st p false selfId).1 ↔
      x ≠ selfId ∧ ∃ e ∈ st, (e.1 = p ∨ keyAncestor p e.1 ∨ keyDescendant p e.1)
        ∧ x ∈ e.2.writes)
    ∧ selfId ∉ (getAndSetDeps st p true selfId).1
    ∧ selfId ∉ (getAndSetDeps st p false selfId).1 := by
  have h1 : ∀ w : Bool, (getAndSetDeps st p w selfId).1
      = (computeDeps st p w).erase selfId := fun _ => rfl
  refine ⟨?_, ?_, ?_, ?_⟩
  · rw [h1, Finset.mem_erase, mem_computeDeps]
    constructor
    · rintro ⟨hne, e, he, hrel, hx⟩
      exact ⟨hne, e, he, (keyRelated_iff p e.1).mp hrel, hx⟩
    · rintro ⟨hne, e, he, hrel, hx⟩
      exact ⟨hne, e, he, (keyRelated_iff p e.1).mpr hrel, hx⟩
  · rw [h1, Finset.mem_erase, mem_computeDeps]
    constructor
    · rintro ⟨hne, e, he, hrel, hx⟩
      exact ⟨hne, e, he, (keyRelated_iff p e.1).mp hrel, hx⟩
    · rintro ⟨hne, e, he, hrel, hx⟩
      exact ⟨hne, e, he, (keyRelated_iff p e.1).mpr hrel, hx⟩
  · rw [h1]
    exact Finset.not_mem_erase _ _
  · rw [h1]
    exact Finset.not_mem_erase _ _

theorem find?_append_of_none {α : Type} (pred : α → Bool) (l1 l2 : List α)
    (h : l1.find? pred = none) : (l1 ++ l2).find? pred = l2.find? pred := by
  induction l1 with
  | nil => rfl
  | cons a l ih =>
    rw [List.find?_cons] at h
    by_cases ha : pred a
    · rw [ha] at h
      cases h
    · have ha2 : pred a = false := by
        cases hh : pred a
        · rfl
        · exact absurd hh ha
      rw [ha2] at h
      show ((a :: (l ++ l2)).find? pred) = l2.find? pred
      rw [List.find?_cons, ha2]
      exact ih h

theorem find?_map_keypres (p : Key) (f : Key × DepsNode → Key × DepsNode)
    (hf : ∀ e, (f e).1 = e.1) (l : DepsState) :
    (l.map f).find? (fun e => e.1 == p) = (l.find? (fun e => e.1 == p)).map f := by
  induction l with
  | nil => rfl
  | cons e0 l ih =>
    show ((f e0 :: l.map f).find? _) = _
    rw [List.find?_cons, List.find?_cons, hf e0]
    by_cases h0 : (e0.1 == p) = true
    · rw [h0]
      rfl
    · have h2 : (e0.1 == p) = false := by
        cases hh : (e0.1 == p)
        · rfl
        · exact absurd hh h0
      rw [h2]
      exact ih

/-- The map step applied to every tree node by registration. -/
def depsMapStep (p : Key) (w : Bool) (selfId : Nat) (e : Key × DepsNode) :
    Key × DepsNode :=
  if keyRelated p e.1 then
    (e.1, if e.1 == p then registerNode (pruneNode e.2) w selfId
          else pruneNode e.2)
  else e

theorem depsMapStep_key (p : Key) (w : Bool) (selfId : Nat) (e : Key × DepsNode) :
    (depsMapStep p w selfId e).1 = e.1 := by
  unfold depsMapStep
  split
  · rfl
  · rfl

theorem getAndSetDeps_state_eq (st : DepsState) (p : Key) (w : Bool) (selfId : Nat) :
    (getAndSetDeps st p w selfId).2
      = (if st.any (fun e => e.1 == p) then st else st ++ [(p, DepsNode.empty)]).map
          (depsMapStep p w selfId) := by
  rfl

theorem nodeAt_getAndSetDeps (st : DepsState) (p : Key) (w : Bool) (selfId : Nat) :
    nodeAt (getAndSetDeps st p w selfId).2 p
      = registerNode (pruneNode (nodeAt st p)) w selfId := by
  rw [getAndSetDeps_state_eq]
  by_cases hany : st.any (fun e => e.1 == p) = true
  · rw [if_pos hany]
    unfold nodeAt
    rw [find?_map_keypres p _ (depsMapStep_key p w selfId) st]
    cases hf : st.find? (fun e => e.1 == p) with
    | none =>
      rcases List.any_eq_true.mp hany with ⟨e, he, hpe⟩
      rw [List.find?_eq_none] at hf
      exact absurd hpe (hf e he)
    | some e0 =>
      have hkey : e0.1 = p := by
        have := List.find?_some hf
        simpa using this
      have hstep : depsMapStep p w selfId e0
          = (e0.1, registerNode (pruneNode e0.2) w selfId) := by
        unfold depsMapStep
        rw [if_pos (by rw [hkey]; exact keyRelated_refl p)]
        rw [if_pos (by rw [hkey]; exact beq_self_eq_true p)]
      simp [hstep]
  · have hany2 : st.any (fun e => e.1 == p) = false := by
      cases hh : st.any (fun e => e.1 == p)
      · rfl
      · exact absurd hh hany
    rw [if_neg (by rw [hany2]; simp)]
    have hnone : st.find? (fun e => e.1 == p) = none := by
      rw [List.find?_eq_none]
      intro e he
      have := List.any_eq_false.mp hany2 e he
      simpa using this
    unfold nodeAt
    rw [List.map_append, find?_append_of_none _ _ _
      (by rw [find?_map_keypres p _ (depsMapStep_key p w selfId) st, hnone]; rfl), hnone]
    have hstep : depsMapStep p w selfId (p, DepsNode.empty)
        = (p, registerNode (pruneNode DepsNode.empty) w selfId) := by
      unfold depsMapStep
      rw [if_pos (keyRelated_refl p)]
      rw [if_pos (beq_self_eq_true p)]
    simp [hstep, List.find?_cons]

theorem mem_registerNode_pruneNode (n : DepsNode) (w : Bool) (selfId x : Nat)
    (hx : x ≠ selfId) :
    (x ∈ (registerNode (pruneNode n) w selfId).writes
        ∪ (registerNode (pruneNode n) w selfId).reads
      ↔ x ∈ n.writes ∪ n.reads ∧ ¬(x ∈ n.acknowledged ∧ x ∈ n.executed)) := by
  unfold registerNode pruneNode
  cases w
  · simp only [Bool.false_eq_true, if_false]
    simp [Finset.mem_union, Finset.mem_sdiff, Finset.mem_inter, hx]
    tauto
  · simp only [if_true]
    simp [Finset.mem_union, Finset.mem_sdiff, Finset.mem_inter, hx]
    tauto

/-- Claim C5: registering a new instance under key `p` removes an id from
the key's live read/write sets exactly when the id is in both the
acknowledged and the executed sets; an id that is only acknowledged or only
executed stays live and still appears in the dependency set a write
registration computes. -/
theorem getAndSetDeps_prune_spec (st : DepsState) (p : Key) (w : Bool) (selfId x : Nat)
    (hx : x ≠ selfId)
    (hlive : x ∈ (nodeAt st p).writes ∪ (nodeAt st p).reads) :
    ((x ∉ (nodeAt (getAndSetDeps st p w selfId).2 p).writes
        ∪ (nodeAt (getAndSetDeps st p w selfId).2 p).reads)
      ↔ (x ∈ (nodeAt st p).acknowledged ∧ x ∈ (nodeAt st p).executed))
    ∧ (¬(x ∈ (nodeAt st p).acknowledged ∧ x ∈ (nodeAt st p).executed) →
        x ∈ (nodeAt (getAndSetDeps st p w selfId).2 p).writes
          ∪ (nodeAt (getAndSetDeps st p w selfId).2 p).reads
        ∧ x ∈ (getAndSetDeps st p true selfId).1) := by
  have hn := nodeAt_getAndSetDeps st p w selfId
  have hmem := mem_registerNode_pruneNode (nodeAt st p) w selfId x hx
  constructor
  · rw [hn, hmem]
    constructor
    · intro h
      by_contra hcon
      exact h ⟨hlive, hcon⟩
    · intro h hcon
      exact hcon.2 h
  · intro hnot
    constructor
    · rw [hn, hmem]
      exact ⟨hlive, hnot⟩
    · have hent : ∃ e ∈ st, e.1 = p ∧ x ∈ e.2.writes ∪ e.2.reads := by
        cases hf : st.find? (fun e => e.1 == p) with
        | none =>
          unfold nodeAt at hlive
          rw [hf] at hlive
          simp [DepsNode.empty] at hlive
        | some e0 =>
          have hkey : e0.1 = p := by
            have := List.find?_some hf
            simpa using this
          have hmem0 : e0 ∈ st := List.mem_of_find?_eq_some hf
          have hnode : nodeAt st p = e0.2 := by
            unfold nodeAt
            rw [hf]
            rfl
          rw [hnode] at hlive
          exact ⟨e0, hmem0, hkey, hlive⟩
      rcases hent with ⟨e0, he0, hkey, hx0⟩
      have h1 : (getAndSetDeps st p true selfId).1
          = (computeDeps st p true).erase selfId := rfl
      rw [h1, Finset.mem_erase, mem_computeDeps]
      refine ⟨hx, e0, he0, ?_, hx0⟩
      rw [hkey]
      exact keyRelated_refl p

/-- Witness for claim C5: id 1 is acknowledged but not executed, so it
survives registration and shows up in the computed write dependencies. -/
theorem getAndSetDeps_prune_spec_witness :
    (1 : Nat) ∈ (nodeAt (getAndSetDeps [(["a"], { writes := {1, 2}, acknowledged := {1} })]
          ["a"] true 9).2 ["a"]).writes
        ∪ (nodeAt (getAndSetDeps [(["a"], { writes := {1, 2}, acknowledged := {1} })]
          ["a"] true 9).2 ["a"]).reads
      ∧ (1 : Nat) ∈ (getAndSetDeps [(["a"], { writes := {1, 2}, acknowledged := {1} })]
          ["a"] true 9).1 :=
  (getAndSetDeps_prune_spec [(["a"], { writes := {1, 2}, acknowledged := {1} })]
    ["a"] true 9 1 (by decide) (by decide)).2 (by decide)

example :
    (getAndSetDeps
      [(["a"], { writes := {1}, reads := {2} }),
       (["a", "b"], { writes := {3}, reads := {4} }),
       (["a", "b", "c"], { writes := {5}, reads := {6} }),
       (["a", "b", "c", "d"], { writes := {7}, reads := {8} }),
       (["a", "b1"], { writes := {9}, reads := {10} })]
      ["a", "b"] false 100).1 = {1, 3, 5, 7} := by decide

example :
    (getAndSetDeps
      [(["a"], { writes := {1}, reads := {2} }),
       (["a", "b"], { writes := {3}, reads := {4} }),
       (["a", "b", "c"], { writes := {5}, reads := {6} }),
       (["a", "b", "c", "d"], { writes := {7}, reads := {8} }),
       (["a", "b1"], { writes := {9}, reads := {10} })]
      ["a", "b"] true 100).1 = {1, 2, 3, 4, 5, 6, 7, 8} := by decide

example :
    (getAndSetDeps
      [(["a"], { writes := {1, 2, 3}, acknowledged := {2, 3}, executed := {1, 3} })]
      ["a"] true 9).1 = {1, 2, 3} := by decide

example :
    (nodeAt (getAndSetDeps
      [(["a"], { writes := {1, 2, 3}, acknowledged := {2, 3}, executed := {1, 3} })]
      ["a"] true 9).2 ["a"]).writes = {1, 2, 9}
    ∧ (nodeAt (getAndSetDeps
      [(["a"], { writes := {1, 2, 3}, acknowledged := {2, 3}, executed := {1, 3} })]
      ["a"] true 9).2 ["a"]).acknowledged = {2}
    ∧ (nodeAt (getAndSetDeps
      [(["a"], { writes := {1, 2, 3}, acknowledged := {2, 3}, executed := {1, 3} })]
      ["a"] true 9).2 ["a"]).executed = {1} := by decide

/-! ## Claim C6: PreAccept attribute merge -/

theorem mem_mergeDependencies (responses : List Instance) : ∀ (acc : Finset Nat) (x : Nat),
    x ∈ mergeDependencies acc responses ↔
      x ∈ acc ∨ ∃ r ∈ responses, x ∈ r.Dependencies := by
  induction responses with
  | nil =>
    intro acc x
    simp [mergeDependencies]
  | cons r l ih =>
    intro acc x
    show x ∈ mergeDependencies (acc ∪ r.Dependencies.toFinset) l ↔ _
    rw [ih]
    constructor
    · rintro (h | ⟨r1, hr1, hx⟩)
      · rcases Finset.mem_union.mp h with h1 | h2
        · exact Or.inl h1
        · exact Or.inr ⟨r, List.mem_cons_self _ _, List.mem_toFinset.mp h2⟩
      · exact Or.inr ⟨r1, List.mem_cons_of_mem _ hr1, hx⟩
    · rintro (h | ⟨r1, hr1, hx⟩)
      · exact Or.inl (Finset.mem_union_left _ h)
      · rcases List.mem_cons.mp hr1 with heq | hr2
        · subst heq
          exact Or.inl (Finset.mem_union_right _ (List.mem_toFinset.mpr hx))
        · exact Or.inr ⟨r1, hr2, hx⟩

theorem mergeSequence_eq (responses : List Instance) : ∀ a : Nat,
    mergeSequence a responses
      = max a ((responses.map Instance.Sequence).foldr max 0) := by
  induction responses with
  | nil =>
    intro a
    simp [mergeSequence]
  | cons r l ih =>
    intro a
    show mergeSequence (max a r.Sequence) l = _
    rw [ih]
    simp only [List.map_cons, List.foldr_cons]
    rw [Nat.max_assoc]

/-- Claim C6: the merged dependencies are the union of the local dependency
set with every returned dependency set, the merged sequence is the maximum
of the local and all returned sequences, and `changes` is true exactly when
the merged dependencies or the merged sequence differ from the local values
before the merge. -/
theorem mergePreAcceptAttributes_spec (inst : Instance) (responses : List Instance)
    (x : Nat) :
    (x ∈ (mergePreAcceptAttributes inst responses).1.Dependencies.toFinset ↔
      x ∈ inst.Dependencies ∨ ∃ r ∈ responses, x ∈ r.Dependencies)
    ∧ (mergePreAcceptAttributes inst responses).1.Sequence
        = max inst.Sequence ((responses.map Instance.Sequence).foldr max 0)
    ∧ ((mergePreAcceptAttributes inst responses).2 = true ↔
        ((mergePreAcceptAttributes inst responses).1.Dependencies.toFinset
            ≠ inst.Dependencies.toFinset
          ∨ (mergePreAcceptAttributes inst responses).1.Sequence ≠ inst.Sequence)) := by
  have hdeps : (mergePreAcceptAttributes inst responses).1.Dependencies.toFinset
      = mergeDependencies inst.Dependencies.toFinset responses := by
    show ((mergeDependencies inst.Dependencies.toFinset responses).sort (· ≤ ·)).toFinset = _
    exact Finset.sort_toFinset _ _
  have hseq : (mergePreAcceptAttributes inst responses).1.Sequence
      = mergeSequence inst.Sequence responses := rfl
  have hchanges : (mergePreAcceptAttributes inst responses).2
      = if mergeDependencies inst.Dependencies.toFinset responses = inst.Dependencies.toFinset
          ∧ mergeSequence inst.Sequence responses = inst.Sequence then false else true := rfl
  refine ⟨?_, ?_, ?_⟩
  · rw [hdeps, mem_mergeDependencies]
    rw [List.mem_toFinset]
  · rw [hseq, mergeSequence_eq]
  · rw [hchanges, hdeps, hseq]
    split
    · rename_i h
      rw [h.1, h.2]
      simp
    · rename_i h
      constructor
      · intro _
        by_contra hcon
        push_neg at hcon
        exact h ⟨hcon.1, hcon.2⟩
      · intro _
        rfl

example :
    (mergePreAcceptAttributes { Sequence := 3, Dependencies := [1, 2, 3, 4] }
      [{ Sequence := 4, Dependencies := [2, 3, 4, 5] }]).2 = true := by decide

example :
    (mergePreAcceptAttributes { Sequence := 3, Dependencies := [1, 2] }
      [{ Sequence := 3, Dependencies := [2, 1] }]).2 = false := by decide

example :
    (mergePreAcceptAttributes { Sequence := 3, Dependencies := [1, 2, 3, 4] }
      [{ Sequence := 4, Dependencies := [2, 3, 4, 5] }]).1.Sequence = 4 := by decide

/-! ## Claim C2: execution order -/

theorem dfs_preserves (g : List Instance) (e : List Nat) : ∀ (fuel iid : Nat)
    (order : List Nat) (x : Nat), x ∈ order → x ∈ executeDepsDFS g e fuel iid order := by
  intro fuel
  induction fuel with
  | zero => intro iid order x hx; exact hx
  | succ n ih =>
    intro iid order x hx
    unfold executeDepsDFS
    split
    · exact hx
    · refine List.mem_append_left _ ?_
      have hfold : ∀ (l : List Nat) (order2 : List Nat), x ∈ order2 →
          x ∈ l.foldl (fun acc d => executeDepsDFS g e n d acc) order2 := by
        intro l
        induction l with
        | nil => intro order2 h2; exact h2
        | cons d ds ihl => intro order2 h2; exact ihl _ (ih d order2 x h2)
      exact hfold _ order hx

theorem dfs_no_executed (g : List Instance) (e : List Nat) : ∀ (fuel iid : Nat)
    (order : List Nat), (∀ x ∈ order, x ∉ e) →
    ∀ x ∈ executeDepsDFS g e fuel iid order, x ∉ e := by
  intro fuel
  induction fuel with
  | zero => intro iid order hinv x hx; exact hinv x hx
  | succ n ih =>
    intro iid order hinv x hx
    unfold executeDepsDFS at hx
    by_cases hc : iid ∈ order ∨ iid ∈ e
    · rw [if_pos hc] at hx
      exact hinv x hx
    · rw [if_neg hc] at hx
      rcases List.mem_append.mp hx with hx1 | hx2
      · have hfold : ∀ (l : List Nat) (order2 : List Nat), (∀ y ∈ order2, y ∉ e) →
            ∀ y ∈ l.foldl (fun acc d => executeDepsDFS g e n d acc) order2, y ∉ e := by
          intro l
          induction l with
          | nil => intro order2 h2 y hy; exact h2 y hy
          | cons d ds ihl =>
            intro order2 h2 y hy
            exact ihl _ (fun z hz => ih d order2 h2 z hz) y hy
        exact hfold _ order hinv x hx1
      · have hxi : x = iid := by simpa using hx2
        subst hxi
        intro hce
        exact hc (Or.inr hce)

/-- Claim C2: the execution order ends with the target instance itself, and
every instance already in the executed set is skipped.  The traversal is the
depth-first walk of the target's transitive dependencies with each level
sorted by `(sequence, instance_id)`, so the order is a deterministic function
of the committed graph. -/
theorem getExecutionOrder_spec (g : List Instance) (executedIds : List Nat)
    (target : Instance) (htgt : target.InstanceID ∉ executedIds) :
    (getExecutionOrder g executedIds target).getLast? = some target.InstanceID
    ∧ ∀ x ∈ getExecutionOrder g executedIds target, x ∉ executedIds := by
  constructor
  · unfold getExecutionOrder executeDepsDFS
    rw [if_neg (by simp [htgt])]
    exact List.getLast?_concat _
  · intro x hx
    unfold getExecutionOrder at hx
    exact dfs_no_executed g executedIds (g.length + 1) target.InstanceID []
      (by intro y hy; cases hy) x hx

/-- Witness for claim C2 on a small committed graph: instance 1 depends on
instances 2 (already executed, skipped) and 3. -/
theorem getExecutionOrder_spec_witness :
    (getExecutionOrder
        [{ InstanceID := 1, Dependencies := [2, 3], Sequence := 10 },
         { InstanceID := 2, Sequence := 5 }, { InstanceID := 3, Sequence := 1 }]
        [2] { InstanceID := 1, Dependencies := [2, 3], Sequence := 10 }).getLast?
      = some ({ InstanceID := 1, Dependencies := [2, 3], Sequence := 10 } : Instance).InstanceID
    ∧ ∀ x ∈ getExecutionOrder
        [{ InstanceID := 1, Dependencies := [2, 3], Sequence := 10 },
         { InstanceID := 2, Sequence := 5 }, { InstanceID := 3, Sequence := 1 }]
        [2] { InstanceID := 1, Dependencies := [2, 3], Sequence := 10 }, x ∉ [2] :=
  getExecutionOrder_spec
    [{ InstanceID := 1, Dependencies := [2, 3], Sequence := 10 },
     { InstanceID := 2, Sequence := 5 }, { InstanceID := 3, Sequence := 1 }]
    [2] { InstanceID := 1, Dependencies := [2, 3], Sequence := 10 } (by decide)

example :
    getExecutionOrder
      [{ InstanceID := 1, Dependencies := [2, 3], Sequence := 10 },
       { InstanceID := 2, Sequence := 5 }, { InstanceID := 3, Sequence := 1 }]
      [2] { InstanceID := 1, Dependencies := [2, 3], Sequence := 10 } = [3, 1] := by decide

example :
    getExecutionOrder
      [{ InstanceID := 6, Dependencies := [4, 5], Sequence := 3 },
       { InstanceID := 4, Sequence := 2 }, { InstanceID := 5, Sequence := 1 }]
      [] { InstanceID := 6, Dependencies := [4, 5], Sequence := 3 } = [5, 4, 6] := by decide

/-! ## Claim C8: the Prepare noop path -/

/-- Claim C8, as amended.  When every Prepare response was accepted but none
carried an instance, and the local instance's status is at most PreAccepted,
`managerPrepareApply` marks the local instance as a noop and drives the
PreAccept phase with it, then — only when the PreAccept phase reports that an
Accept round is required (no fast path) — the Accept phase, then the Commit
phase, all started with the local instance. -/
theorem prepareApply_noop (localInst : Instance) (responses : List PrepareResponse)
    (acceptRequired0 : Bool)
    (hacc : allResponsesAccepted responses = true)
    (hnil : ∀ r ∈ responses, r.Instance = none)
    (hst : localInst.Status ≤ INSTANCE_PREACCEPTED) :
    managerPrepareApply localInst responses acceptRequired0 =
      some (true, (Phase.preaccept, localInst.InstanceID) ::
        ((if acceptRequired0 then [(Phase.accept, localInst.InstanceID)] else [])
          ++ [(Phase.commit, localInst.InstanceID)])) := by
  unfold managerPrepareApply
  rw [hacc, analyze_none_of_all_none responses hnil]
  simp only [Bool.not_true, Bool.false_eq_true, if_false, if_pos hst]
  unfold phaseTrace
  simp

/-- Witness for the amended claim C8 at a concrete local instance and
response list. -/
theorem prepareApply_noop_witness :
    managerPrepareApply { InstanceID := 7, Status := INSTANCE_PREACCEPTED }
        [{ Accepted := true, Instance := none }] true =
      some (true, (Phase.preaccept,
          ({ InstanceID := 7, Status := INSTANCE_PREACCEPTED } : Instance).InstanceID) ::
        ((if true then [(Phase.accept,
            ({ InstanceID := 7, Status := INSTANCE_PREACCEPTED } : Instance).InstanceID)] else [])
          ++ [(Phase.commit,
            ({ InstanceID := 7, Status := INSTANCE_PREACCEPTED } : Instance).InstanceID)])) :=
  prepareApply_noop { InstanceID := 7, Status := INSTANCE_PREACCEPTED }
    [{ Accepted := true, Instance := none }] true (by decide) (by decide) (by decide)

/-- Claim C8 counterexample: with only nil-instance responses and a
PreAccepted local instance, when the PreAccept phase reports no changes (the
fast path), the Accept phase is never driven — the phases run are PreAccept
and Commit only — contradicting the claim that the coordinator drives
PreAccept, Accept and Commit. -/
theorem prepareApply_fast_path_skips_accept :
    managerPrepareApply { InstanceID := 7, Status := INSTANCE_PREACCEPTED }
        [{ Accepted := true, Instance := none }] false
      = some (true, [(Phase.preaccept, 7), (Phase.commit, 7)])
    ∧ ∀ x ∈ [(Phase.preaccept, 7), (Phase.commit, 7)], x.1 ≠ Phase.accept := by
  exact ⟨rfl, by decide⟩

/-- A concrete response list for the claim C7 witness. -/
def c7WitnessResponses : List PrepareResponse :=
  [{ Accepted := true, Instance := some { InstanceID := 4, MaxBallot := 2, Status := 2 } },
   { Accepted := true, Instance := none },
   { Accepted := true, Instance := some { InstanceID := 9, MaxBallot := 2, Status := 3 } }]

/-- Witness for claim C7 at a concrete response list. -/
theorem analyzePrepareResponses_spec_witness :
    ∃ inst, analyzePrepareResponses c7WitnessResponses = some inst
      ∧ (∃ r ∈ c7WitnessResponses, r.Instance = some inst)
      ∧ inst.MaxBallot = maxResponseBallot c7WitnessResponses
      ∧ inst.Status = statusSupAtBallot (maxResponseBallot c7WitnessResponses)
          c7WitnessResponses :=
  (analyzePrepareResponses_spec c7WitnessResponses (by decide)).2 (by decide) (by decide)

end Kickboxer
